import Mathlib

/-!
Verification development for the PyLibGen repository (`libgen_explorer`).

The Python source is shallowly embedded in Lean:

* `src/libgen_explorer/api.py` — the HTML result parser `_parse_html_results`
  is embedded as `parseTable` / `parseRow` over an already-tokenised table
  (a list of rows, each row a list of cells carrying stripped-text input and
  anchor lists, exactly the data BeautifulSoup hands the loop).  The network
  call `_get_direct_download_link` is a parameter `getLink : String → Option
  String` (its result is the only thing the loop observes).  Python `float`
  strings are modelled by `pyFloat?` (optionally signed decimal numerals with
  at most one dot, the only numeral shape appearing in LibGen size strings),
  Python `int()` truncation by `pyInt`, `str.split()` by `pysplit`,
  `urllib.parse.quote` by `quote`.
* `src/libgen_explorer/rating.py` — term extraction and the five factor
  scores.  Python floats are modelled as exact rationals; `np.log1p` on
  floats is a parameter `flog : ℚ → ℚ` of the rating pipeline (the claims
  proved about the pipeline hold for every value of `flog`), while the claim
  about the recency formula itself is proved over `ℝ` with `Real.log`.
  `pandas.DataFrame.sort_values(ascending=False)` is embedded following
  pandas' `nargsort`: NaN keys are split off, the non-NaN part is reversed,
  stably argsorted ascending, reversed again, and the NaN positions are
  appended (`na_position='last'`).  The underlying `argsort` kind is
  modelled as a stable sort (numpy's default quicksort is an introsort that
  runs plain insertion sort below 17 elements).
* `src/libgen_explorer/extraction.py` — `filter_dataframe` and
  `extract_features` over a row-oriented DataFrame model `DF`.
  `pd.to_datetime(...).dt.year` is a parameter `dy : Val → Val` of
  `extractFeatures`; every theorem holds for all its values.

Python cell values are modelled by `Val` (`Val.nan` is NaN/None); operations
that raise in pandas (e.g. subtracting a string column from an integer)
return `Option.none`, and the `try/except` blocks of the source surface as
`Option` handling that returns the original input, exactly as the code does.
-/

namespace PyLibGen

/-- Value stored in one DataFrame cell: integer, float (exact rational),
string, boolean, or NaN/missing. -/
inductive Val where
  | nan : Val
  | int (n : ℤ) : Val
  | rat (q : ℚ) : Val
  | str (s : String) : Val
  | bool (b : Bool) : Val
deriving DecidableEq, Repr

/-- Row-oriented model of a `pandas.DataFrame`: a column-name list and rows
of cells, positionally aligned with the column names. -/
structure DF where
  colNames : List String
  rows : List (List Val)
deriving DecidableEq, Repr

/-- Index of the first column with the given name (`df.columns` lookup). -/
def colIdx? (c : String) : List String → Option Nat
  | [] => none
  | n :: ns => if n = c then some 0 else (colIdx? c ns).map (· + 1)

/-- Membership test `c in df.columns`. -/
def DF.hasCol (df : DF) (c : String) : Bool := (colIdx? c df.colNames).isSome

/-- Cell of a row at a column position; out-of-range reads give NaN (never
happens on well-formed frames). -/
def getCell (r : List Val) (i : Nat) : Val := r.getD i Val.nan

/-- Column values `df[c]` as a list (empty if the column is absent). -/
def DF.colVals (df : DF) (c : String) : List Val :=
  match colIdx? c df.colNames with
  | some i => df.rows.map (fun r => getCell r i)
  | none => []

/-- Column assignment `df[c] = vs`: replace the column if present, else
append it as the last column. -/
def DF.setCol (df : DF) (c : String) (vs : List Val) : DF :=
  match colIdx? c df.colNames with
  | some i => ⟨df.colNames, df.rows.zipWith (fun r v => r.set i v) vs⟩
  | none => ⟨df.colNames ++ [c], df.rows.zipWith (fun r v => r ++ [v]) vs⟩

/-- The `df.empty` test: no rows or no columns. -/
def DF.empty (df : DF) : Bool := df.rows.isEmpty || df.colNames.isEmpty

/-- Well-formedness of the model: every row has exactly one cell per column
(always true of a real `pandas.DataFrame`). -/
def DF.wfb (df : DF) : Bool := df.rows.all (fun r => r.length = df.colNames.length)

/-! ### Generic Python string helpers -/

/-- Maximal runs of characters satisfying `p` (the shared shape of
`str.split()` — runs of non-whitespace — and `re.findall(r'\b\w+\b', ·)` —
runs of word characters).  `cur` is the current run, reversed. -/
def runsAux (p : Char → Bool) : List Char → List Char → List String
  | cur, [] => if cur.isEmpty then [] else [String.mk cur.reverse]
  | cur, c :: cs =>
    if p c then runsAux p (c :: cur) cs
    else if cur.isEmpty then runsAux p [] cs
    else String.mk cur.reverse :: runsAux p [] cs

/-- Maximal runs of characters satisfying `p` in a string. -/
def runsOf (p : Char → Bool) (s : String) : List String := runsAux p [] s.toList

/-- Python `str.split()` with no argument: split on whitespace runs,
dropping empty pieces.  Scope: `Char.isWhitespace` covers ASCII
whitespace, while Python also splits on Unicode whitespace such as U+00A0
(`&nbsp;`); no theorem below quantifies over such inputs. -/
def pysplit (s : String) : List String := runsOf (fun c => !c.isWhitespace) s

/-- Python `str.strip()`: drop whitespace from both ends (structural
implementation so that proofs can evaluate it). -/
def pyStrip (s : String) : String :=
  String.mk (((s.toList.dropWhile Char.isWhitespace).reverse.dropWhile
    Char.isWhitespace).reverse)

/-- Python `str.upper()` (ASCII scope). -/
def strUpper (s : String) : String := String.mk (s.toList.map Char.toUpper)

/-- Python `str.lower()` (ASCII scope). -/
def strLower (s : String) : String := String.mk (s.toList.map Char.toLower)

/-- Python `str.replace(',', '.')`. -/
def replaceComma (s : String) : String :=
  String.mk (s.toList.map (fun c => if c == ',' then '.' else c))

/-- Whether the first list starts with the second. -/
def startsWithL : List Char → List Char → Bool
  | _, [] => true
  | [], _ :: _ => false
  | a :: as, b :: bs => a == b && startsWithL as bs

/-- Whether `sub` occurs inside `l`. -/
def containsSubL (l sub : List Char) : Bool :=
  match l with
  | [] => sub.isEmpty
  | _ :: t => startsWithL l sub || containsSubL t sub

/-- Substring test (Python `in` on strings). -/
def strContainsSub (s sub : String) : Bool := containsSubL s.toList sub.toList

/-- Python `str.split('/')`: split on every slash, keeping empty pieces.
`cur` is the current piece, reversed. -/
def splitSlashAux : List Char → List Char → List String
  | cur, [] => [String.mk cur.reverse]
  | cur, x :: xs =>
    if x == '/' then String.mk cur.reverse :: splitSlashAux [] xs
    else splitSlashAux (x :: cur) xs

/-- Python `str.split('/')` (always returns a non-empty list, so the
`[-1]` access below is total). -/
def splitSlash (s : String) : List String := splitSlashAux [] s.toList

/-- Numeric value of a list of decimal digit characters. -/
def digitsVal (cs : List Char) : ℚ := cs.foldl (fun a c => 10 * a + (c.toNat - 48)) 0

/-- Python `float(s)` on plain decimal numerals: an optionally signed
numeral with at most one dot and at least one digit; `none` models the
`ValueError` path.  Scope: Python's `float()` additionally accepts
exponent notation, `inf`/`nan`, digit-group underscores and non-ASCII
digits; no theorem below quantifies over such numerals (see the note on
`sizeToBytes` for the `inf`/`nan` behaviour of the source). -/
def pyFloat? (s : String) : Option ℚ :=
  let cs := s.toList
  let sgn : ℚ := if cs.head? == some '-' then -1 else 1
  let body := if cs.head? == some '-' || cs.head? == some '+' then cs.tail else cs
  let ip := body.takeWhile Char.isDigit
  let rest := body.dropWhile Char.isDigit
  if rest.isEmpty then
    if ip.isEmpty then none else some (sgn * digitsVal ip)
  else if rest.head? == some '.' then
    let fp := rest.tail.takeWhile Char.isDigit
    let rest3 := rest.tail.dropWhile Char.isDigit
    if !rest3.isEmpty then none
    else if ip.isEmpty && fp.isEmpty then none
    else some (sgn * (digitsVal ip + digitsVal fp / 10 ^ fp.length))
  else none

/-- Python `int()` on a finite float: truncation toward zero. -/
def pyInt (q : ℚ) : ℤ := if q < 0 then ⌈q⌉ else ⌊q⌋

/-- Hexadecimal digit character (uppercase), as produced by
`urllib.parse.quote`. -/
def hexDig (n : Nat) : Char := if n < 10 then Char.ofNat (48 + n) else Char.ofNat (55 + n)

/-- Percent-encoding of one UTF-8 byte: kept verbatim when unreserved
(ASCII alphanumerics, `_.-~`) or in the default safe set (`/`). -/
def quoteByte (n : Nat) : String :=
  if (65 ≤ n && n ≤ 90) || (97 ≤ n && n ≤ 122) || (48 ≤ n && n ≤ 57) ||
      (n = 95 || n = 46 || n = 45 || n = 126 || n = 47) then
    String.singleton (Char.ofNat n)
  else
    "%" ++ String.singleton (hexDig (n / 16)) ++ String.singleton (hexDig (n % 16))

/-- Model of `urllib.parse.quote(s)` (default `safe='/'`). -/
def quote (s : String) : String :=
  String.join ((s.toUTF8.toList.map (fun b => b.toNat)).map quoteByte)

/-! ### `api.py` — `_parse_html_results` -/

/-- An `<a>` element as the parser consumes it: its `href` attribute
(`links[0].get('href', '')` yields `""` when absent, folded in here). -/
structure Anchor where
  href : String
deriving DecidableEq, Repr

/-- A `<td>` cell: its stripped text and its anchors (`find_all('a')`). -/
structure Cell where
  text : String
  anchors : List Anchor
deriving DecidableEq, Repr

/-- The record dictionary built per row. -/
structure Book where
  id : String
  author : String
  title : String
  publisher : String
  year : String
  pages : String
  language : String
  size : String
  extension : String
  link : Option String
  download_links : List (String × String)
  filesize : ℤ
deriving DecidableEq, Repr

/-- Cell text access `cells[i].text.strip() if len(cells) > i else ''`
(the model's `Cell.text` is already the extracted text; `strip` applied
here). -/
def cellText (cells : List Cell) (i : Nat) : String :=
  match cells.get? i with
  | some c => pyStrip c.text
  | none => ""

/-- Size-string to byte count (lines 227–248 of `api.py`): split into two
whitespace-separated parts, parse the value with `,` → `.`, then match the
upper-cased unit against KB/MB/GB/B in that order; any failure leaves the
default `0`.  The final Python `int(filesize)` truncation is `pyInt`.
Scope: this total model is faithful only on the numerals `pyFloat?` and
`pysplit` cover; in the source a numeral `float()` parses to `inf` or
`nan` makes the final `int(filesize)` raise outside the per-size handler
(which guards only the conversion at lines 233–245), so the function-level
handler returns `[]` and the whole parse aborts — behaviour this
definition does not represent. -/
def sizeToBytes (sizeText : String) : ℤ :=
  if sizeText = "" then 0
  else
    let parts := pysplit sizeText
    if parts.length = 2 then
      match pyFloat? (replaceComma (parts.getD 0 "")) with
      | none => 0
      | some x =>
        let unit := strUpper (parts.getD 1 "")
        let fs : ℚ :=
          if strContainsSub unit "KB" then x * 1024
          else if strContainsSub unit "MB" then x * 1024 * 1024
          else if strContainsSub unit "GB" then x * 1024 * 1024 * 1024
          else if strContainsSub unit "B" then x
          else 0
        pyInt fs
    else 0

/-- The deterministic mirror links added from the record's `id`
(lines 219–222 of `api.py`). -/
def mirrorLinks (bid : String) : List (String × String) :=
  [("ipfs_cloudflare", "https://cloudflare-ipfs.com/ipfs/" ++ bid),
   ("ipfs_io", "https://ipfs.io/ipfs/" ++ bid),
   ("ipfs_pinata", "https://gateway.pinata.cloud/ipfs/" ++ bid),
   ("tor_mirror",
    "http://libgenfrialc7tguyjywa36vtrdcplxydrxnm3f6zjbwxprqsycqad.onion/main/" ++ bid)]

/-- The constructed fallback download URL (lines 204–214 of `api.py`):
percent-encoded `author - title[-publisher][ (year)][.extension]` under a
fixed path with the id taken from the main link. -/
def fallbackGetURL (author title publisher year extension bookId : String) : String :=
  let f := author ++ " - " ++ title
  let f := if publisher ≠ "" then f ++ "-" ++ publisher else f
  let f := if year ≠ "" then f ++ " (" ++ year ++ ")" else f
  let f := if extension ≠ "" then f ++ "." ++ extension else f
  "https://download.books.ms/main/880000/" ++ bookId ++ "/" ++ quote f

/-- One iteration of the row loop of `_parse_html_results` (lines 162–250):
rows with fewer than 8 cells are skipped (`none`); otherwise the nine text
fields are read positionally, download links are assembled when cell 9
exists and holds at least one anchor, and the size text is converted to a
byte count.  `getLink` is `_get_direct_download_link` (a network fetch);
the `try/except` around the link block never fires in the model because
none of the modelled operations raise. -/
def parseRow (getLink : String → Option String) (cells : List Cell) : Option Book :=
  if cells.length < 8 then none
  else
    let id := cellText cells 0
    let author := cellText cells 1
    let title := cellText cells 2
    let publisher := cellText cells 3
    let year := cellText cells 4
    let pages := cellText cells 5
    let language := cellText cells 6
    let size := cellText cells 7
    let extension := cellText cells 8
    let linkAndDls : Option String × List (String × String) :=
      match cells.get? 9 with
      | some c9 =>
        match c9.anchors with
        | [] => (none, [])
        | a :: _ =>
          let mainLink := a.href
          let bookId := (splitSlash mainLink).getLastD ""
          let getURL :=
            match getLink mainLink with
            | some d => d
            | none => fallbackGetURL author title publisher year extension bookId
          (some mainLink, ("main_page", mainLink) :: ("get", getURL) :: mirrorLinks id)
      | none => (none, [])
    some
      { id, author, title, publisher, year, pages, language, size, extension
        link := linkAndDls.1
        download_links := linkAndDls.2
        filesize := sizeToBytes size }

/-- The row loop over the located table: skip the header row
(`find_all('tr')[1:]`), keep one record per surviving row in source
order. -/
def parseTable (getLink : String → Option String) (trs : List (List Cell)) : List Book :=
  (trs.drop 1).filterMap (parseRow getLink)

/-! ### `rating.py` — term extraction and factor scores -/

/-- Word character for `re.findall(r'\b\w+\b', ·)` (ASCII scope of `\w`). -/
def isWordChar (c : Char) : Bool := c.isAlphanum || c = '_'

/-- The stopword set of `_extract_terms`. -/
def stopwords : List String :=
  ["a", "an", "the", "and", "or", "but", "in", "on", "at", "to", "for",
   "with", "by", "of", "from", "as", "is", "are", "was", "were", "be",
   "this", "that", "these", "those", "it"]

/-- Model of `_extract_terms` (lines 116–139 of `rating.py`): lowercase,
take maximal word-character runs, drop stopwords and one-character tokens,
collect into a set. -/
def extractTerms (text : String) : Finset String :=
  if text = "" then ∅
  else
    ((runsOf isWordChar (strLower text)).filter
      (fun t => !stopwords.contains t && decide (1 < t.length))).toFinset

/-- Model of `_calculate_term_match_score` (lines 141–171 of `rating.py`). -/
def termMatchScore (text : String) (terms : Finset String) : ℚ :=
  if text = "" ∨ terms = ∅ then 0
  else
    let textTerms := extractTerms text
    if textTerms = ∅ then 0
    else
      let matching := textTerms ∩ terms
      if matching = ∅ then 0
      else
        (2 / 5) * ((matching.card : ℚ) / textTerms.card) +
          (3 / 5) * ((matching.card : ℚ) / terms.card)

/-- The per-cell application of the term-match score: the source lambda
receives the raw cell value and `_calculate_term_match_score` returns 0 for
anything that is not a (truthy) string. -/
def termMatchVal (v : Val) (terms : Finset String) : ℚ :=
  match v with
  | .str s => termMatchScore s terms
  | _ => 0

/-- Model of `pd.to_numeric(·, errors='coerce')` on one cell: numbers pass
through, booleans become 0/1, numeric strings are parsed, everything else
becomes NaN (`none`). -/
def pdToNumeric (v : Val) : Option ℚ :=
  match v with
  | .int n => some (n : ℚ)
  | .rat q => some q
  | .bool b => some (if b then 1 else 0)
  | .nan => none
  | .str s => pyFloat? s

/-- The series `pd.to_numeric(series, errors='coerce').fillna(0)` opening
`_normalize_column`. -/
def fillZero (col : List Val) : List ℚ := col.map (fun v => (pdToNumeric v).getD 0)

/-- Model of `_normalize_column` (lines 276–291 of `rating.py`): coerce to
numeric with NaN → 0, then map every value to 0.5 when max = min, else
min-max normalize. -/
def normalizeColumn (col : List Val) : List ℚ :=
  let s := fillZero col
  match s.max?, s.min? with
  | some mx, some mn =>
    if mx = mn then s.map (fun _ => (1 / 2 : ℚ))
    else s.map (fun v => (v - mn) / (mx - mn))
  | _, _ => []

/-- The recency formula of `_calculate_recency_score` over the reals:
`1 - log1p(clip(years_since, 0, 50)) / log1p(50)` (note `log1p 50 = log 51`). -/
noncomputable def recencyScoreR (ys : ℝ) : ℝ :=
  1 - Real.log (1 + min (max ys 0) 50) / Real.log 51

/-- Model of `_calculate_recency_score` (lines 173–201 of `rating.py`) over
the reals: coerce years, all-NaN gives the neutral 0.5 series, otherwise
score each valid year (NaN years stay NaN, modelled as `none`). -/
noncomputable def calcRecencyScoreR (cy : ℤ) (col : List Val) : List (Option ℝ) :=
  let years := col.map pdToNumeric
  if years.all Option.isNone then years.map (fun _ => some (1 / 2 : ℝ))
  else years.map (Option.map (fun y : ℚ => recencyScoreR ((cy : ℝ) - (y : ℝ))))

/-- The same series computation with `np.log1p` as an abstract float
function `flog` (every theorem about the rating pipeline holds for all
`flog`), keeping the pipeline computable over ℚ. -/
def recencyScoresQ (flog : ℚ → ℚ) (cy : ℤ) (col : List Val) : List (Option ℚ) :=
  let years := col.map pdToNumeric
  if years.all Option.isNone then years.map (fun _ => some (1 / 2 : ℚ))
  else years.map (Option.map (fun y => 1 - flog (min (max ((cy : ℚ) - y) 0) 50) / flog 50))

/-- The extension bonus table of `_calculate_quality_score`
(`map(...).fillna(0.0)`: unmapped or non-string values give 0). -/
def extBonus (v : Val) : ℚ :=
  match v with
  | .str "pdf" => 1 / 5
  | .str "epub" => 1 / 4
  | .str "mobi" => 1 / 5
  | .str "djvu" => 3 / 20
  | .str "azw3" => 1 / 5
  | .str "fb2" => 3 / 20
  | .str "txt" => 0
  | .str "html" => 1 / 20
  | .str "cbz" => 1 / 10
  | .str "cbr" => 1 / 10
  | _ => 0

/-- Megabyte conversion `df['filesize'] / (1024*1024)` on one cell.  Outer
`none` is the `TypeError` a string cell raises (caught by `rate_results`);
inner `none` is a NaN cell, whose NaN size falls in no tier mask. -/
def sizeMB? (v : Val) : Option (Option ℚ) :=
  match v with
  | .int n => some (some ((n : ℚ) / (1024 * 1024)))
  | .rat q => some (some (q / (1024 * 1024)))
  | .bool b => some (some ((if b then (1 : ℚ) else 0) / (1024 * 1024)))
  | .nan => some none
  | .str _ => none

/-- The filesize-tier adjustment masks of `_calculate_quality_score`
(a NaN size matches no mask and contributes 0). -/
def sizeTier (m? : Option ℚ) : ℚ :=
  match m? with
  | none => 0
  | some m =>
    if m < 1 / 10 then -(1 / 5)
    else if m < 1 then -(1 / 10)
    else if m < 10 then 0
    else if m < 50 then 1 / 10
    else 3 / 20

/-- The page-count adjustments: `-0.2` on the `pages == 0` mask and `+0.1`
on the `pages > 300` mask (the masks are disjoint). -/
def pagesAdj (sc p : ℚ) : ℚ :=
  (if p = 0 then sc - 1 / 5 else sc) + (if 300 < p then 1 / 10 else 0)

/-- The final `clip(0, 1)`. -/
def clip01 (q : ℚ) : ℚ := max 0 (min q 1)

/-- Model of `_calculate_quality_score` (lines 203–274 of `rating.py`):
start from 0.5, add the extension bonus, the size tier (this step raises on
a string filesize: `none`), and the pages adjustments, then clip to [0,1]. -/
def qualityScores? (df : DF) : Option (List ℚ) := do
  let base := List.replicate df.rows.length (1 / 2 : ℚ)
  let s1 := if df.hasCol "extension"
    then base.zipWith (· + ·) ((df.colVals "extension").map extBonus) else base
  let s2 ←
    if df.hasCol "filesize" then do
      let mbs ← (df.colVals "filesize").mapM sizeMB?
      pure (s1.zipWith (· + ·) (mbs.map sizeTier))
    else pure s1
  let s3 := if df.hasCol "pages"
    then s2.zipWith pagesAdj ((df.colVals "pages").map (fun v => (pdToNumeric v).getD 0))
    else s2
  pure (s3.map clip01)

/-- The rating weights (`self.weights`); `rate_results` reads them by key. -/
structure Weights where
  title_match : ℚ
  author_match : ℚ
  recency : ℚ
  popularity : ℚ
  quality : ℚ
deriving DecidableEq, Repr

/-- The default weight configuration of `ResultRater.__init__`. -/
def defaultWeights : Weights := ⟨2 / 5, 1 / 5, 1 / 10, 1 / 10, 1 / 5⟩

/-- Python `' '.join(additional_keywords)`. -/
def joinSpace (l : List String) : String := String.intercalate " " l

/-- NaN-aware score cell. -/
def optValRat : Option ℚ → Val
  | some q => .rat q
  | none => .nan

/-- The query term set of `rate_results` (lines 61–64 of `rating.py`):
the query's terms, extended with the joined additional keywords when any
are supplied. -/
def queryTermsOf (query : String) (addKw : List String) : Finset String :=
  if addKw.isEmpty then extractTerms query
  else extractTerms query ∪ extractTerms (joinSpace addKw)

/-- The `title_match_score` column (lines 67–72 of `rating.py`). -/
def titleScores (qt : Finset String) (df : DF) : List ℚ :=
  if df.hasCol "title" then (df.colVals "title").map (fun v => termMatchVal v qt)
  else List.replicate df.rows.length 0

/-- The `author_match_score` column (lines 74–79 of `rating.py`). -/
def authorScores (qt : Finset String) (df : DF) : List ℚ :=
  if df.hasCol "author" then (df.colVals "author").map (fun v => termMatchVal v qt)
  else List.replicate df.rows.length 0

/-- The `recency_score` column (lines 81–84 of `rating.py`). -/
def recencyCol (flog : ℚ → ℚ) (cy : ℤ) (df : DF) : List (Option ℚ) :=
  if df.hasCol "year" then recencyScoresQ flog cy (df.colVals "year")
  else List.replicate df.rows.length (some (1 / 2 : ℚ))

/-- The `popularity_score` column (lines 86–92 of `rating.py`). -/
def popularityCol (df : DF) : List ℚ :=
  if df.hasCol "filesize" then normalizeColumn (df.colVals "filesize")
  else if df.hasCol "download_count" then normalizeColumn (df.colVals "download_count")
  else List.replicate df.rows.length (1 / 2 : ℚ)

/-- The weighted `overall_score` column (lines 98–104 of `rating.py`); a
NaN recency score makes the row's overall score NaN. -/
def overallCol (w : Weights) (ts au : List ℚ) (rc : List (Option ℚ))
    (pp qs : List ℚ) : List (Option ℚ) :=
  (((ts.zip au).zip rc).zip (pp.zip qs)).map
    (fun x => x.1.2.map (fun r =>
      w.title_match * x.1.1.1 + w.author_match * x.1.1.2 + w.recency * r +
        w.popularity * x.2.1 + w.quality * x.2.2))

/-- The scoring part of `rate_results` (lines 59–104 of `rating.py`), up to
but excluding the sort: computes the five factor-score columns and the
weighted overall score (NaN whenever the recency score is NaN), and returns
the enriched frame together with the overall-score keys.  `none` models the
exception path (a non-numeric filesize raising inside the quality score). -/
def ratePrep (flog : ℚ → ℚ) (cy : ℤ) (w : Weights) (df : DF) (query : String)
    (addKw : List String) : Option (DF × List (Option ℚ)) := do
  let qt := queryTermsOf query addKw
  let ts := titleScores qt df
  let au := authorScores qt df
  let rc := recencyCol flog cy df
  let pp := popularityCol df
  let qs ← qualityScores? df
  let ov := overallCol w ts au rc pp qs
  let df1 := df.setCol "title_match_score" (ts.map Val.rat)
  let df2 := df1.setCol "author_match_score" (au.map Val.rat)
  let df3 := df2.setCol "recency_score" (rc.map optValRat)
  let df4 := df3.setCol "popularity_score" (pp.map Val.rat)
  let df5 := df4.setCol "quality_score" (qs.map Val.rat)
  let df6 := df5.setCol "overall_score" (ov.map optValRat)
  pure (df6, ov)

/-- Ascending comparison on overall-score keys, as the argsort compares
them (NaN keys are split off before the comparison ever sees them). -/
def keyLe (a b : α × Option ℚ) : Prop := a.2.getD 0 ≤ b.2.getD 0

instance {α : Type} : DecidableRel (keyLe (α := α)) :=
  fun a b => inferInstanceAs (Decidable (a.2.getD 0 ≤ b.2.getD 0))

/-- Model of pandas `sort_values('overall_score', ascending=False)` keyed
rows, following `pandas.core.sorting.nargsort`: split off NaN keys, sort
the non-NaN part by key descending, and append the NaN positions
(`na_position='last'`).  The default argsort kind, numpy `quicksort`, is
not stable, so the source leaves the relative order of equal keys
unspecified; this executable model fixes one admissible order (a stable
sort of the reversed sequence), and the theorems below assert only the
consequences every admissible order shares — permutation, descending
scores, NaN keys last — never a tie order. -/
def nargsortDesc (l : List (α × Option ℚ)) : List (α × Option ℚ) :=
  let nonNans := l.filter (fun p => p.2.isSome)
  let nans := l.filter (fun p => p.2.isNone)
  (List.insertionSort keyLe nonNans.reverse).reverse ++ nans

/-- Model of `rate_results` (lines 42–114 of `rating.py`): empty input is
returned as is; an exception during scoring returns the input unchanged
(the `except` branch); otherwise the enriched rows are reordered by the
descending `nargsort` of the overall-score keys. -/
def rateResults (flog : ℚ → ℚ) (cy : ℤ) (w : Weights) (df : DF) (query : String)
    (addKw : List String) : DF :=
  if df.empty then df
  else
    match ratePrep flog cy w df query addKw with
    | some (df6, ov) => ⟨df6.colNames, (nargsortDesc (df6.rows.zip ov)).map (fun p => p.1)⟩
    | none => df

/-! ### `extraction.py` — `filter_dataframe` and `extract_features` -/

/-- The four filter-value shapes `filter_dataframe` dispatches on: a list
(`isin` membership), a two-element tuple (inclusive range), a callable
(boolean predicate), and anything else (exact equality). -/
inductive FilterVal where
  | allow (vs : List Val) : FilterVal
  | range (lo hi : Val) : FilterVal
  | pred (f : Val → Bool) : FilterVal
  | scalar (v : Val) : FilterVal

/-- Numeric view of a cell for comparisons (pandas compares booleans as
0/1 but never equates numbers with strings). -/
def numVal? : Val → Option ℚ
  | .int n => some (n : ℚ)
  | .rat q => some q
  | .bool b => some (if b then 1 else 0)
  | _ => none

/-- Elementwise `<=` as pandas evaluates it on cells: numeric compare when
both sides are numeric, lexicographic on strings, otherwise false. -/
def valLeB (a b : Val) : Bool :=
  match numVal? a, numVal? b with
  | some x, some y => decide (x ≤ y)
  | _, _ =>
    match a, b with
    | .str s, .str t => decide (s ≤ t)
    | _, _ => false

/-- Elementwise `==` as pandas evaluates it on cells (NaN equals nothing,
including NaN). -/
def valEqB (a b : Val) : Bool :=
  match numVal? a, numVal? b with
  | some x, some y => decide (x = y)
  | _, _ =>
    match a, b with
    | .str s, .str t => decide (s = t)
    | _, _ => false

/-- Membership for `isin` (which, unlike `==`, does match NaN to NaN). -/
def valIn (v : Val) (vs : List Val) : Bool :=
  vs.any (fun u => valEqB v u || (v == .nan && u == .nan))

/-- Dispatch of one filter value on one cell. -/
def matchesFilter (fv : FilterVal) (v : Val) : Bool :=
  match fv with
  | .allow vs => valIn v vs
  | .range lo hi => valLeB lo v && valLeB v hi
  | .pred f => f v
  | .scalar u => valEqB v u

/-- Model of `filter_dataframe` (lines 63–105 of `extraction.py`): empty
input returned as is; each filter whose column exists keeps the rows whose
cell satisfies it (boolean-mask indexing), missing columns are skipped.
The function works on a copy, which the functional embedding renders as
purity: the argument `df` is a value and cannot be mutated. -/
def filterDataframe (df : DF) (filters : List (String × FilterVal)) : DF :=
  if df.empty then df
  else
    ⟨df.colNames,
      filters.foldl (fun rs cf =>
        match colIdx? cf.1 df.colNames with
        | none => rs
        | some i => rs.filter (fun r => matchesFilter cf.2 (getCell r i))) df.rows⟩

/-- Elementwise `current_year - result['year']`; a string cell raises
(`none`), NaN propagates. -/
def valSubFrom (c : ℤ) (v : Val) : Option Val :=
  match v with
  | .int n => some (.int (c - n))
  | .rat q => some (.rat ((c : ℚ) - q))
  | .bool b => some (.int (c - if b then 1 else 0))
  | .nan => some .nan
  | .str _ => none

/-- Elementwise `result['filesize'] / (1024 * 1024)`. -/
def valDivMB (v : Val) : Option Val :=
  match v with
  | .int n => some (.rat ((n : ℚ) / (1024 * 1024)))
  | .rat q => some (.rat (q / (1024 * 1024)))
  | .bool b => some (.rat ((if b then (1 : ℚ) else 0) / (1024 * 1024)))
  | .nan => some .nan
  | .str _ => none

/-- Elementwise `result['language'].str[:2].str.lower()` (the `.str`
accessor yields NaN on non-string cells). -/
def valLangCode (v : Val) : Val :=
  match v with
  | .str s => .str (strLower (String.mk (s.toList.take 2)))
  | _ => .nan

/-- Elementwise `result['year'] >= (current_year - 5)` (NaN compares
False; a string cell raises). -/
def valGeFrom (k : ℤ) (v : Val) : Option Val :=
  match v with
  | .int n => some (.bool (k ≤ n))
  | .rat q => some (.bool ((k : ℚ) ≤ q))
  | .bool b => some (.bool (k ≤ if b then 1 else 0))
  | .nan => some (.bool false)
  | .str _ => none

/-- One gated derived-column statement of `extract_features` whose
elementwise computation can raise: when the source column exists, compute
the target column from it (`none` propagates the exception), otherwise do
nothing. -/
def deriveFromM (src tgt : String) (f : Val → Option Val) (r : DF) : Option DF :=
  if r.hasCol src then ((r.colVals src).mapM f).map (r.setCol tgt) else pure r

/-- One gated derived-column statement whose elementwise computation is
total. -/
def deriveFrom (src tgt : String) (f : Val → Val) (r : DF) : DF :=
  if r.hasCol src then r.setCol tgt ((r.colVals src).map f) else r

/-- The derived-column block of `extract_features` (lines 277–305 of
`extraction.py`): year from date (only when `year` is absent; the datetime
parse `pd.to_datetime(...).dt.year` is the parameter `dy`), then book age,
filesize in MB, language code, and the recent flag, each gated on its
source column.  `none` is the exception path. -/
def addDerived (cy : ℤ) (dy : Val → Val) (df : DF) : Option DF := do
  let r1 := if df.hasCol "date" && !df.hasCol "year"
    then df.setCol "year" ((df.colVals "date").map dy) else df
  let r2 ← deriveFromM "year" "book_age" (valSubFrom cy) r1
  let r3 ← deriveFromM "filesize" "filesize_mb" valDivMB r2
  let r4 := deriveFrom "language" "language_code" valLangCode r3
  let r5 ← deriveFromM "year" "is_recent" (valGeFrom (cy - 5)) r4
  pure r5

/-- Model of `extract_features` (lines 264–309 of `extraction.py`): empty
input returned as is; any exception returns the input unchanged. -/
def extractFeatures (cy : ℤ) (dy : Val → Val) (df : DF) : DF :=
  if df.empty then df else (addDerived cy dy df).getD df

/-! ### Theorems about the extractor (`_parse_html_results`) -/

/-- Rows survive the cell-count gate exactly when they have at least 8
cells. -/
theorem parseRow_isSome_iff (g : String → Option String) (cells : List Cell) :
    (parseRow g cells).isSome ↔ 8 ≤ cells.length := by
  by_cases h : cells.length < 8
  · simp only [parseRow, if_pos h, Option.isSome_none, Bool.false_eq_true, false_iff]
    omega
  · simp only [parseRow, if_neg h, Option.isSome_some, true_iff]
    omega

/-- A row with fewer than 8 cells is skipped. -/
theorem parseRow_eq_none_of_lt (g : String → Option String) (cells : List Cell)
    (h : cells.length < 8) : parseRow g cells = none := by
  simp [parseRow, if_pos h]

/-- Claim C2 (amended): the extractor skips the header row, and the row
gate is a minimum cell count of 8, not 9: every row with fewer than 8
cells is silently skipped (in particular a 6-cell row shortens the result
by one), and every row with at least 8 cells — including an 8-cell row —
yields exactly one record, so the result length is the number of
non-header rows with at least 8 cells. -/
theorem extractor_min_cell_count (g : String → Option String) :
    (∀ cells : List Cell, cells.length < 8 → parseRow g cells = none) ∧
    (∀ cells : List Cell, 8 ≤ cells.length → (parseRow g cells).isSome) ∧
    (∀ trs : List (List Cell),
      (parseTable g trs).length =
        ((trs.drop 1).filter (fun r => decide (8 ≤ r.length))).length) := by
  refine ⟨fun cells h => parseRow_eq_none_of_lt g cells h, ?_, ?_⟩
  · exact fun cells h => (parseRow_isSome_iff g cells).mpr h
  · intro trs
    unfold parseTable
    induction trs.drop 1 with
    | nil => rfl
    | cons r t ih =>
      rw [List.filterMap_cons, List.filter_cons]
      by_cases h : 8 ≤ r.length
      · obtain ⟨b, hb⟩ := Option.isSome_iff_exists.mp ((parseRow_isSome_iff g r).mpr h)
        simp [hb, h, ih]
      · rw [parseRow_eq_none_of_lt g r (by omega)]
        simp [h, ih]

/-- Witness for C2: a 6-cell row is dropped while two 8-cell rows are each
kept, so a header plus three rows parse to exactly two records. -/
theorem extractor_min_cell_count_witness :
    parseRow (fun _ => none) (List.replicate 6 ⟨"c", []⟩) = none ∧
    (parseRow (fun _ => none) (List.replicate 8 ⟨"c", []⟩)).isSome ∧
    (parseTable (fun _ => none)
      [[], List.replicate 8 ⟨"c", []⟩, List.replicate 6 ⟨"c", []⟩,
       List.replicate 8 ⟨"d", []⟩]).length =
      (([List.replicate 8 ⟨"c", []⟩, List.replicate 6 (⟨"c", []⟩ : Cell),
         List.replicate 8 ⟨"d", []⟩] : List (List Cell)).filter
        (fun r => decide (8 ≤ r.length))).length := by
  refine ⟨(extractor_min_cell_count (fun _ => none)).1 _ (by decide),
    (extractor_min_cell_count (fun _ => none)).2.1 _ (by decide),
    (extractor_min_cell_count (fun _ => none)).2.2 _⟩

/-- Counterexample for C2 as stated: an 8-cell row is below the claimed
minimum of 9, yet the code keeps it and produces a record. -/
theorem extractor_min_cell_count_cex :
    (List.replicate 8 (⟨"c", []⟩ : Cell)).length < 9 ∧
    parseRow (fun _ => none) (List.replicate 8 ⟨"c", []⟩) ≠ none := by
  constructor
  · decide
  · intro h
    have := (parseRow_isSome_iff (fun _ => none) (List.replicate 8 ⟨"c", []⟩)).mpr (by decide)
    rw [h] at this
    simp at this

/-- Claim C6 (amended): the parser performs no identifier validation.
Every row passing the 8-cell gate yields a record whose `id` is the
stripped text of its first cell, even when that cell is empty: a row
lacking an identifier is not rejected and contributes a record with
`id = ""`. -/
theorem extractor_no_id_validation (g : String → Option String) (cells : List Cell)
    (h : 8 ≤ cells.length) :
    ∃ b, parseRow g cells = some b ∧ b.id = cellText cells 0 := by
  simp only [parseRow, if_neg (by omega : ¬cells.length < 8)]
  exact ⟨_, rfl, rfl⟩

/-- Witness for C6: a kept row whose first cell is blank parses to a
record with an empty id. -/
theorem extractor_no_id_validation_witness :
    ∃ b, parseRow (fun _ => none) (List.replicate 8 ⟨" ", []⟩) = some b ∧
      b.id = cellText (List.replicate 8 ⟨" ", []⟩) 0 :=
  extractor_no_id_validation (fun _ => none) (List.replicate 8 ⟨" ", []⟩) (by decide)

/-- Counterexample for C6 as stated: a table whose single non-header row
has an empty first cell still produces a record, and its id is the empty
string — no rejection of id-less rows happens. -/
theorem extractor_no_id_validation_cex :
    (parseTable (fun _ => none) [[], List.replicate 8 ⟨"", []⟩]).map Book.id = [""] := by
  decide

/-- Claim C1 (amended): the four deterministic mirror links derived from
the record's `id` are attached if and only if the row has a tenth cell
containing at least one anchor; in that case they are present — and
`download_links` is non-empty — for every outcome of the network-dependent
direct-link fetch, but a kept row without such a cell (e.g. a plain 8- or
9-cell row) gets an empty `download_links` mapping. -/
theorem extractor_mirror_links (g : String → Option String) (cells : List Cell)
    (b : Book) (hb : parseRow g cells = some b) :
    (∀ c9, cells.get? 9 = some c9 → c9.anchors ≠ [] →
      b.download_links ≠ [] ∧
      b.download_links.lookup "ipfs_cloudflare" =
        some ("https://cloudflare-ipfs.com/ipfs/" ++ b.id) ∧
      b.download_links.lookup "ipfs_io" = some ("https://ipfs.io/ipfs/" ++ b.id) ∧
      b.download_links.lookup "ipfs_pinata" =
        some ("https://gateway.pinata.cloud/ipfs/" ++ b.id) ∧
      b.download_links.lookup "tor_mirror" =
        some ("http://libgenfrialc7tguyjywa36vtrdcplxydrxnm3f6zjbwxprqsycqad.onion/main/"
          ++ b.id)) ∧
    (∀ c9, cells.get? 9 = some c9 → c9.anchors = [] → b.download_links = []) ∧
    (cells.get? 9 = none → b.download_links = []) := by
  by_cases h : cells.length < 8
  · rw [parseRow_eq_none_of_lt g cells h] at hb
    exact absurd hb (by simp)
  · simp only [parseRow, if_neg h, Option.some.injEq] at hb
    subst hb
    refine ⟨?_, ?_, ?_⟩
    · intro c9 h9 ha
      rw [List.get?_eq_getElem?] at h9
      obtain ⟨a, t, hat⟩ := List.exists_cons_of_ne_nil ha
      simp [h9, hat, mirrorLinks, List.lookup]
    · intro c9 h9 ha
      rw [List.get?_eq_getElem?] at h9
      simp [h9, ha]
    · intro h9
      rw [List.get?_eq_getElem?] at h9
      simp [h9]

/-- Witness for C1: a ten-cell row whose tenth cell holds one anchor gets
the four mirror links even though the direct-link fetch fails
(`getLink = fun _ => none`), while a nine-cell row gets an empty mapping. -/
theorem extractor_mirror_links_witness :
    (∀ b, parseRow (fun _ => none)
        (List.replicate 9 ⟨"x", []⟩ ++ [⟨"", [⟨"http://m/7"⟩]⟩]) = some b →
      b.download_links.lookup "ipfs_io" = some ("https://ipfs.io/ipfs/" ++ b.id) ∧
      b.download_links ≠ []) ∧
    (∀ b, parseRow (fun _ => none) (List.replicate 9 ⟨"x", []⟩) = some b →
      b.download_links = []) := by
  constructor
  · intro b hb
    have h := extractor_mirror_links (fun _ => none) _ b hb
    have h9 : (List.replicate 9 (⟨"x", []⟩ : Cell) ++
        [(⟨"", [⟨"http://m/7"⟩]⟩ : Cell)]).get? 9 = some (⟨"", [⟨"http://m/7"⟩]⟩ : Cell) := by
      decide
    obtain ⟨hne, _, hio, _, _⟩ := h.1 _ h9 (by decide)
    exact ⟨hio, hne⟩
  · intro b hb
    have h9 : (List.replicate 9 (⟨"x", []⟩ : Cell)).get? 9 = none := by decide
    exact (extractor_mirror_links (fun _ => none) _ b hb).2.2 h9

/-- Counterexample for C1 as stated: a kept nine-cell row produces a
record whose `download_links` is empty — it contains none of the
offline-derivable mirror links. -/
theorem extractor_mirror_links_cex :
    (parseTable (fun _ => none) [[], List.replicate 9 ⟨"r", []⟩]).map
      Book.download_links = [[]] := by
  decide

/-! ### Theorems about the rating factors -/

/-- Claim C4: the term-match score is 0 whenever the field's extracted
term set, the query term set, or their intersection is empty; otherwise it
is `0.4 * |inter| / |field_terms| + 0.6 * |inter| / |query_terms|`; and it
always lies in [0, 1]. -/
theorem term_match_score_spec (text : String) (terms : Finset String) :
    (extractTerms text = ∅ ∨ terms = ∅ ∨ extractTerms text ∩ terms = ∅ →
      termMatchScore text terms = 0) ∧
    (extractTerms text ≠ ∅ → terms ≠ ∅ → extractTerms text ∩ terms ≠ ∅ →
      termMatchScore text terms =
        (2 / 5) * (((extractTerms text ∩ terms).card : ℚ) / (extractTerms text).card) +
          (3 / 5) * (((extractTerms text ∩ terms).card : ℚ) / terms.card)) ∧
    0 ≤ termMatchScore text terms ∧ termMatchScore text terms ≤ 1 := by
  have hempty : extractTerms "" = ∅ := rfl
  refine ⟨?_, ?_, ?_⟩
  · intro h
    simp only [termMatchScore]
    split_ifs with h1 h2 h3
    · rfl
    · rfl
    · rfl
    · exfalso
      rcases h with h | h | h
      · exact h2 h
      · exact h1 (Or.inr h)
      · exact h3 h
  · intro hT hq hI
    have htext : text ≠ "" := by
      intro he
      rw [he, hempty] at hT
      exact hT rfl
    simp only [termMatchScore]
    rw [if_neg (by push_neg; exact ⟨htext, hq⟩), if_neg hT, if_neg hI]
  · simp only [termMatchScore]
    split_ifs with h1 h2 h3
    · norm_num
    · norm_num
    · norm_num
    · have hq : terms ≠ ∅ := fun he => h1 (Or.inr he)
      have hc1 : (extractTerms text ∩ terms).card ≤ (extractTerms text).card :=
        Finset.card_le_card Finset.inter_subset_left
      have hc2 : (extractTerms text ∩ terms).card ≤ terms.card :=
        Finset.card_le_card Finset.inter_subset_right
      have hp1 : (0 : ℚ) < (extractTerms text).card := by
        exact_mod_cast Finset.card_pos.mpr (Finset.nonempty_iff_ne_empty.mpr h2)
      have hp2 : (0 : ℚ) < terms.card := by
        exact_mod_cast Finset.card_pos.mpr (Finset.nonempty_iff_ne_empty.mpr hq)
      constructor
      · positivity
      · have hd1 : ((extractTerms text ∩ terms).card : ℚ) / (extractTerms text).card ≤ 1 :=
          (div_le_one hp1).mpr (by exact_mod_cast hc1)
        have hd2 : ((extractTerms text ∩ terms).card : ℚ) / terms.card ≤ 1 :=
          (div_le_one hp2).mpr (by exact_mod_cast hc2)
        calc (2 / 5) * (((extractTerms text ∩ terms).card : ℚ) / (extractTerms text).card) +
              (3 / 5) * (((extractTerms text ∩ terms).card : ℚ) / terms.card) ≤
            (2 / 5) * 1 + (3 / 5) * 1 := by
              gcongr
          _ = 1 := by norm_num

/-- Witness for C4: the spec's ranking scenario — against the query terms
of `clean code`, the field `Database Systems` scores 0 (no shared term),
and against `clean code handbook` the field `Clean Code` takes the
combined ratio-coverage value. -/
theorem term_match_score_spec_witness :
    termMatchScore "Database Systems" (extractTerms "clean code") = 0 ∧
    termMatchScore "Clean Code" (extractTerms "clean code handbook") =
      (2 / 5) * (((extractTerms "Clean Code" ∩ extractTerms "clean code handbook").card : ℚ) /
        (extractTerms "Clean Code").card) +
      (3 / 5) * (((extractTerms "Clean Code" ∩ extractTerms "clean code handbook").card : ℚ) /
        (extractTerms "clean code handbook").card) :=
  ⟨(term_match_score_spec "Database Systems" (extractTerms "clean code")).1
      (Or.inr (Or.inr (by decide))),
    (term_match_score_spec "Clean Code" (extractTerms "clean code handbook")).2.1
      (by decide) (by decide) (by decide)⟩

/-- Largest element characterisation of `List.max?` over ℚ. -/
theorem max?_spec {l : List ℚ} {a : ℚ} (h : l.max? = some a) :
    a ∈ l ∧ ∀ b ∈ l, b ≤ a := by
  haveI : Std.Antisymm (fun x1 x2 : ℚ => x1 ≤ x2) := ⟨fun {x y} hx hy => le_antisymm hx hy⟩
  exact (List.max?_eq_some_iff (fun x => le_refl x) (fun x y => max_choice x y)
    (fun _ _ _ => max_le_iff)).mp h

/-- Least element characterisation of `List.min?` over ℚ. -/
theorem min?_spec {l : List ℚ} {a : ℚ} (h : l.min? = some a) :
    a ∈ l ∧ ∀ b ∈ l, a ≤ b := by
  haveI : Std.Antisymm (fun x1 x2 : ℚ => x1 ≤ x2) := ⟨fun {x y} hx hy => le_antisymm hx hy⟩
  exact (List.min?_eq_some_iff (fun x => le_refl x) (fun x y => min_choice x y)
    (fun _ _ _ => le_min_iff)).mp h

/-- Claim C8: on a non-empty column whose coerced values are all equal —
in particular two records with identical filesize — every record gets the
neutral popularity score 0.5; otherwise the minimum is strictly below the
maximum (so the min-max denominator is non-zero), each value is min-max
normalized, and every normalized score lies in [0, 1]. -/
theorem normalize_column_spec (col : List Val) (h : col ≠ []) :
    ((∀ x ∈ fillZero col, ∀ y ∈ fillZero col, x = y) →
      normalizeColumn col = List.replicate col.length (1 / 2 : ℚ)) ∧
    (¬(∀ x ∈ fillZero col, ∀ y ∈ fillZero col, x = y) →
      (fillZero col).min?.getD 0 < (fillZero col).max?.getD 0 ∧
      normalizeColumn col = (fillZero col).map
        (fun v => (v - (fillZero col).min?.getD 0) /
          ((fillZero col).max?.getD 0 - (fillZero col).min?.getD 0)) ∧
      ∀ q ∈ normalizeColumn col, 0 ≤ q ∧ q ≤ 1) := by
  have hs : fillZero col ≠ [] := by
    simp only [fillZero, ne_eq, List.map_eq_nil_iff]
    exact h
  obtain ⟨mx, hmx⟩ := Option.ne_none_iff_exists'.mp
    (fun hn => hs (List.max?_eq_none_iff.mp hn))
  obtain ⟨mn, hmn⟩ := Option.ne_none_iff_exists'.mp
    (fun hn => hs (List.min?_eq_none_iff.mp hn))
  obtain ⟨hmxm, hub⟩ := max?_spec hmx
  obtain ⟨hmnm, hlb⟩ := min?_spec hmn
  constructor
  · intro hall
    have he : mx = mn := hall _ hmxm _ hmnm
    simp only [normalizeColumn, hmx, hmn, if_pos he]
    rw [List.map_const']
    simp [fillZero]
  · intro hne
    have hlt : mn < mx := by
      rcases eq_or_lt_of_le (hlb _ hmxm) with heq | hl
      · exfalso
        apply hne
        intro x hx y hy
        have h1 := le_antisymm (hub x hx) (heq ▸ hlb x hx)
        have h2 := le_antisymm (hub y hy) (heq ▸ hlb y hy)
        rw [h1, h2]
      · exact hl
    have hform : normalizeColumn col = (fillZero col).map
        (fun v => (v - (fillZero col).min?.getD 0) /
          ((fillZero col).max?.getD 0 - (fillZero col).min?.getD 0)) := by
      simp only [normalizeColumn, hmx, hmn, if_neg (ne_of_gt hlt), Option.getD_some]
    refine ⟨by rw [hmx, hmn]; simpa using hlt, hform, ?_⟩
    intro q hq
    rw [hform, hmx, hmn] at hq
    simp only [Option.getD_some, List.mem_map] at hq
    obtain ⟨v, hv, rfl⟩ := hq
    have hd : (0 : ℚ) < mx - mn := sub_pos.mpr hlt
    constructor
    · exact div_nonneg (sub_nonneg.mpr (hlb v hv)) (le_of_lt hd)
    · rw [div_le_one hd]
      exact sub_le_sub_right (hub v hv) mn

/-- Witness for C8: two records with identical filesize both get
popularity score 0.5 (the spec's degenerate-distribution scenario). -/
theorem normalize_column_spec_witness :
    normalizeColumn [Val.int 5, Val.int 5] = [1 / 2, 1 / 2] := by
  have h := (normalize_column_spec [Val.int 5, Val.int 5] (by simp)).1 (by
    intro x hx y hy
    simp [fillZero, pdToNumeric] at hx hy
    rw [hx, hy])
  rw [h]
  rfl

/-! ### Theorems about `extraction.py` -/

/-- Claim C10: filtering only ever removes rows — for every input frame
and every filter mapping (covering all four accepted value shapes:
allow-list, two-element inclusive range, callable predicate, and exact
scalar equality), the result's rows are a subsequence of the input's rows
in their original relative order, and the column list is unchanged.  The
embedding is functional, so the input frame itself cannot be mutated
(`filter_dataframe` works on a copy). -/
theorem filter_dataframe_rows (df : DF) (filters : List (String × FilterVal)) :
    (filterDataframe df filters).rows.Sublist df.rows ∧
    (filterDataframe df filters).colNames = df.colNames := by
  have step : ∀ (fs : List (String × FilterVal)) (rs : List (List Val)),
      (fs.foldl (fun rs cf =>
        match colIdx? cf.1 df.colNames with
        | none => rs
        | some i => rs.filter (fun r => matchesFilter cf.2 (getCell r i))) rs).Sublist rs := by
    intro fs
    induction fs with
    | nil => exact fun rs => List.Sublist.refl rs
    | cons f t ih =>
      intro rs
      rw [List.foldl_cons]
      refine (ih _).trans ?_
      rcases hci : colIdx? f.1 df.colNames with _ | i
      · simp only [hci]
        exact List.Sublist.refl rs
      · simp only [hci]
        exact List.filter_sublist rs
  unfold filterDataframe
  by_cases hemp : df.empty = true
  · rw [if_pos hemp]
    exact ⟨List.Sublist.refl df.rows, rfl⟩
  · rw [if_neg hemp]
    exact ⟨step filters df.rows, rfl⟩

/-- Claim C7: the recency score is monotonically non-increasing in
`years_since`, is exactly 0 at `years_since = 50` and all greater ages
(clipped to 50), equals 1 at `years_since = 0` and tends to 1 as
`years_since → 0`, and a collection with no valid numeric year gives every
record the neutral score 0.5. -/
theorem recency_score_spec :
    (∀ a b : ℝ, a ≤ b → recencyScoreR b ≤ recencyScoreR a) ∧
    recencyScoreR 50 = 0 ∧
    (∀ y : ℝ, 50 ≤ y → recencyScoreR y = 0) ∧
    recencyScoreR 0 = 1 ∧
    Filter.Tendsto recencyScoreR (nhds 0) (nhds 1) ∧
    (∀ (cy : ℤ) (col : List Val), (col.map pdToNumeric).all Option.isNone →
      calcRecencyScoreR cy col = col.map (fun _ => some (1 / 2 : ℝ))) := by
  have h51 : (0 : ℝ) < Real.log 51 := Real.log_pos (by norm_num)
  have hat0 : recencyScoreR 0 = 1 := by
    unfold recencyScoreR
    rw [max_self, min_eq_left (by norm_num : (0 : ℝ) ≤ 50)]
    simp [Real.log_one]
  have hge50 : ∀ y : ℝ, 50 ≤ y → recencyScoreR y = 0 := by
    intro y hy
    unfold recencyScoreR
    rw [max_eq_left (by linarith : (0 : ℝ) ≤ y), min_eq_right hy]
    rw [show (1 : ℝ) + 50 = 51 by norm_num, div_self (ne_of_gt h51)]
    ring
  refine ⟨?_, hge50 50 le_rfl, hge50, hat0, ?_, ?_⟩
  · intro a b hab
    unfold recencyScoreR
    have hle : min (max a 0) 50 ≤ min (max b 0) 50 :=
      min_le_min (max_le_max hab le_rfl) le_rfl
    have h0a : (0 : ℝ) ≤ min (max a 0) 50 := le_min (le_max_right a 0) (by norm_num)
    have hlog : Real.log (1 + min (max a 0) 50) ≤ Real.log (1 + min (max b 0) 50) :=
      Real.log_le_log (by linarith) (by linarith)
    have := (div_le_div_iff_of_pos_right h51).mpr hlog
    linarith
  · have hc : Continuous fun ys : ℝ => 1 + min (max ys 0) 50 :=
      continuous_const.add ((continuous_id.max continuous_const).min continuous_const)
    have hg : ContinuousAt (fun ys : ℝ => Real.log (1 + min (max ys 0) 50)) 0 := by
      apply ContinuousAt.comp (x := (0 : ℝ)) (g := Real.log)
      · apply Real.continuousAt_log
        show (1 : ℝ) + min (max 0 0) 50 ≠ 0
        rw [max_self, min_eq_left (by norm_num : (0 : ℝ) ≤ 50)]
        norm_num
      · exact hc.continuousAt
    have hca : ContinuousAt recencyScoreR 0 := by
      unfold recencyScoreR
      exact continuousAt_const.sub (hg.div_const _)
    have := hca.tendsto
    rwa [hat0] at this
  · intro cy col hall
    unfold calcRecencyScoreR
    rw [if_pos hall]
    rw [List.map_map]
    rfl

/-- Witness for C7: the score at age 5 is at most the score at age 3, a
60-year-old book scores exactly 0, and a collection whose year column
holds only `n/a` and NaN gets the neutral 0.5 everywhere. -/
theorem recency_score_spec_witness :
    recencyScoreR 5 ≤ recencyScoreR 3 ∧ recencyScoreR 60 = 0 ∧
    calcRecencyScoreR 2025 [Val.str "n/a", Val.nan] = [some (1 / 2 : ℝ), some (1 / 2 : ℝ)] := by
  refine ⟨recency_score_spec.1 3 5 (by norm_num),
    recency_score_spec.2.2.1 60 (by norm_num), ?_⟩
  have h := recency_score_spec.2.2.2.2.2 2025 [Val.str "n/a", Val.nan] (by decide)
  rw [h]
  rfl

/-! ### Infrastructure for the Feature Builder idempotence proof -/

/-- A column index is within the column list. -/
theorem colIdx?_lt_length {c : String} : ∀ {ns : List String} {i : Nat},
    colIdx? c ns = some i → i < ns.length := by
  intro ns
  induction ns with
  | nil => intro i h; simp [colIdx?] at h
  | cons n t ih =>
    intro i h
    simp only [colIdx?] at h
    split_ifs at h with he
    · simp only [Option.some.injEq] at h
      simp only [List.length_cons]
      omega
    · rcases ho : colIdx? c t with _ | j
      · rw [ho] at h; simp at h
      · rw [ho] at h
        simp only [Option.map_some', Option.some.injEq] at h
        have := ih ho
        simp only [List.length_cons]
        omega

/-- The column list holds `c` at the index `colIdx?` reports. -/
theorem colIdx?_getElem {c : String} : ∀ {ns : List String} {i : Nat},
    colIdx? c ns = some i → ns[i]? = some c := by
  intro ns
  induction ns with
  | nil => intro i h; simp [colIdx?] at h
  | cons n t ih =>
    intro i h
    simp only [colIdx?] at h
    split_ifs at h with he
    · simp only [Option.some.injEq] at h
      subst he
      simp [← h]
    · rcases ho : colIdx? c t with _ | j
      · rw [ho] at h; simp at h
      · rw [ho] at h
        simp only [Option.map_some', Option.some.injEq] at h
        subst h
        simpa using ih ho

/-- Distinct column names have distinct indices. -/
theorem colIdx?_ne {c d : String} {ns : List String} {i j : Nat} (hcd : c ≠ d)
    (hc : colIdx? c ns = some i) (hd : colIdx? d ns = some j) : i ≠ j := by
  intro he
  subst he
  have h1 := colIdx?_getElem hc
  have h2 := colIdx?_getElem hd
  rw [h1] at h2
  exact hcd (Option.some.injEq _ _ ▸ h2)

/-- An index found in a prefix of the column list survives appending. -/
theorem colIdx?_append_left {c : String} : ∀ {ns ms : List String} {i : Nat},
    colIdx? c ns = some i → colIdx? c (ns ++ ms) = some i := by
  intro ns
  induction ns with
  | nil => intro ms i h; simp [colIdx?] at h
  | cons n t ih =>
    intro ms i h
    simp only [colIdx?, List.cons_append] at h ⊢
    split_ifs at h ⊢ with he
    · exact h
    · rcases ho : colIdx? c t with _ | j
      · rw [ho] at h; simp at h
      · rw [ho] at h
        rw [show t.append ms = t ++ ms from rfl, ih ho]
        exact h

/-- Looking up a name absent from the column list after appending one
name. -/
theorem colIdx?_append_of_none {c d : String} : ∀ {ns : List String},
    colIdx? c ns = none → colIdx? c (ns ++ [d]) =
      if d = c then some ns.length else none := by
  intro ns
  induction ns with
  | nil =>
    intro _
    simp [colIdx?]
  | cons n t ih =>
    intro h
    simp only [colIdx?, List.cons_append] at h ⊢
    by_cases he : n = c
    · rw [if_pos he] at h
      simp at h
    · rw [if_neg he] at h ⊢
      rcases ho : colIdx? c t with _ | j
      · rw [show t.append [d] = t ++ [d] from rfl, ih ho]
        by_cases hd : d = c
        · rw [if_pos hd, if_pos hd]
          simp [List.length_cons]
        · rw [if_neg hd, if_neg hd]
          simp
      · rw [ho] at h
        simp at h

/-- Name membership is what `hasCol` decides. -/
theorem colIdx?_isSome_iff {c : String} : ∀ {ns : List String},
    (colIdx? c ns).isSome = true ↔ c ∈ ns := by
  intro ns
  induction ns with
  | nil => simp [colIdx?]
  | cons n t ih =>
    simp only [colIdx?, List.mem_cons]
    split_ifs with he
    · simp [he]
    · rcases ho : colIdx? c t with _ | j
      · rw [ho] at ih
        simp only [Option.map_none', Option.isSome_none] at ih ⊢
        simp only [Bool.false_eq_true, false_iff] at ih ⊢
        intro hc
        rcases hc with hc | hc
        · exact he hc.symm
        · exact ih hc
      · rw [ho] at ih
        simp only [Option.map_some', Option.isSome_some, true_iff] at ih ⊢
        exact Or.inr ih

/-- Well-formedness as a proposition: every row is as long as the column
list. -/
def DF.WF (df : DF) : Prop := ∀ r ∈ df.rows, r.length = df.colNames.length

/-- The executable well-formedness check agrees with the proposition. -/
theorem DF.wfb_iff {df : DF} : df.wfb = true ↔ df.WF := by
  simp [DF.wfb, DF.WF, List.all_eq_true]

/-- Replacing at one position leaves reads at other positions unchanged,
rowwise over a whole frame. -/
theorem zipWith_set_map_getCell_ne {i j : Nat} (hij : i ≠ j) :
    ∀ (rows : List (List Val)) (vs : List Val), vs.length = rows.length →
      (List.zipWith (fun r v => r.set i v) rows vs).map (fun r => getCell r j) =
        rows.map (fun r => getCell r j) := by
  intro rows
  induction rows with
  | nil => intro vs _; simp
  | cons r t ih =>
    intro vs hv
    cases vs with
    | nil => simp at hv
    | cons v tv =>
      simp only [List.zipWith_cons_cons, List.map_cons, List.length_cons] at hv ⊢
      simp only [List.cons.injEq]
      constructor
      · simp only [getCell, List.getD_eq_getElem?_getD, List.getElem?_set_ne hij]
      · exact ih tv (by omega)

/-- Replacing at one in-bounds position makes reads there return the new
values, rowwise over a whole frame. -/
theorem zipWith_set_map_getCell_self {i : Nat} :
    ∀ (rows : List (List Val)) (vs : List Val), vs.length = rows.length →
      (∀ r ∈ rows, i < r.length) →
      (List.zipWith (fun r v => r.set i v) rows vs).map (fun r => getCell r i) = vs := by
  intro rows
  induction rows with
  | nil =>
    intro vs hv _
    simp at hv
    simp [hv]
  | cons r t ih =>
    intro vs hv hb
    cases vs with
    | nil => simp at hv
    | cons v tv =>
      simp only [List.zipWith_cons_cons, List.map_cons, List.length_cons] at hv ⊢
      simp only [List.cons.injEq]
      constructor
      · have hi : i < r.length := hb r (by simp)
        simp [getCell, List.getD_eq_getElem?_getD, List.getElem?_set_self,
          List.length_set, hi]
      · exact ih tv (by omega) (fun x hx => hb x (by simp [hx]))

/-- Appending a value to each row leaves in-bounds reads unchanged. -/
theorem zipWith_append_map_getCell_lt {j : Nat} :
    ∀ (rows : List (List Val)) (vs : List Val), vs.length = rows.length →
      (∀ r ∈ rows, j < r.length) →
      (List.zipWith (fun r v => r ++ [v]) rows vs).map (fun r => getCell r j) =
        rows.map (fun r => getCell r j) := by
  intro rows
  induction rows with
  | nil => intro vs _ _; simp
  | cons r t ih =>
    intro vs hv hb
    cases vs with
    | nil => simp at hv
    | cons v tv =>
      simp only [List.zipWith_cons_cons, List.map_cons, List.length_cons] at hv ⊢
      simp only [List.cons.injEq]
      constructor
      · have hj : j < r.length := hb r (by simp)
        simp [getCell, List.getD_eq_getElem?_getD, List.getElem?_append, hj]
      · exact ih tv (by omega) (fun x hx => hb x (by simp [hx]))

/-- Appending a value to each row of length `L` makes reads at position
`L` return the appended values. -/
theorem zipWith_append_map_getCell_len {L : Nat} :
    ∀ (rows : List (List Val)) (vs : List Val), vs.length = rows.length →
      (∀ r ∈ rows, r.length = L) →
      (List.zipWith (fun r v => r ++ [v]) rows vs).map (fun r => getCell r L) = vs := by
  intro rows
  induction rows with
  | nil =>
    intro vs hv _
    simp at hv
    simp [hv]
  | cons r t ih =>
    intro vs hv hb
    cases vs with
    | nil => simp at hv
    | cons v tv =>
      simp only [List.zipWith_cons_cons, List.map_cons, List.length_cons] at hv ⊢
      simp only [List.cons.injEq]
      constructor
      · have hr : r.length = L := hb r (by simp)
        rw [getCell, List.getD_eq_getElem?_getD, List.getElem?_append_right (by omega)]
        simp [hr]
      · exact ih tv (by omega) (fun x hx => hb x (by simp [hx]))

/-- Writing back the value already present at an in-bounds position is the
identity. -/
theorem set_getD_self : ∀ (l : List Val) (i : Nat), i < l.length →
    l.set i (l.getD i Val.nan) = l := by
  intro l
  induction l with
  | nil => intro i h; simp at h
  | cons a t ih =>
    intro i h
    cases i with
    | zero => simp
    | succ j =>
      simp only [List.set_cons_succ, List.getD_cons_succ, List.cons.injEq, true_and]
      exact ih j (by simpa using h)

/-- Writing the values a frame already holds in a column is the identity,
rowwise. -/
theorem zipWith_set_self {i : Nat} :
    ∀ (rows : List (List Val)), (∀ r ∈ rows, i < r.length) →
      List.zipWith (fun r v => r.set i v) rows (rows.map (fun r => getCell r i)) = rows := by
  intro rows
  induction rows with
  | nil => intro _; simp
  | cons r t ih =>
    intro hb
    simp only [List.map_cons, List.zipWith_cons_cons, List.cons.injEq]
    constructor
    · exact set_getD_self r i (hb r (by simp))
    · exact ih (fun x hx => hb x (by simp [hx]))

/-- Members of a `zipWith` come from the two lists. -/
theorem mem_zipWith {α β γ : Type} {f : α → β → γ} {x : γ} :
    ∀ {as : List α} {bs : List β}, x ∈ List.zipWith f as bs →
      ∃ a b, a ∈ as ∧ b ∈ bs ∧ x = f a b := by
  intro as
  induction as with
  | nil => intro bs h; simp at h
  | cons a t ih =>
    intro bs h
    cases bs with
    | nil => simp at h
    | cons b tb =>
      simp only [List.zipWith_cons_cons, List.mem_cons] at h
      rcases h with h | h
      · exact ⟨a, b, by simp, by simp, h⟩
      · obtain ⟨a', b', ha, hb, he⟩ := ih h
        exact ⟨a', b', by simp [ha], by simp [hb], he⟩

/-- Length of a succeeding `Option`-monadic map. -/
theorem mapM_length {α β : Type} {f : α → Option β} :
    ∀ {l : List α} {l' : List β}, l.mapM f = some l' → l'.length = l.length := by
  intro l
  induction l with
  | nil =>
    intro l' h
    simp only [List.mapM_nil, pure, Option.some.injEq] at h
    simp [← h]
  | cons a t ih =>
    intro l' h
    rw [List.mapM_cons] at h
    cases hf : f a with
    | none => rw [hf] at h; simp [bind, Option.bind] at h
    | some v =>
      rw [hf] at h
      cases hm : t.mapM f with
      | none =>
        rw [hm] at h
        simp [bind, Option.bind] at h
      | some tl =>
        rw [hm] at h
        simp only [bind, Option.bind, pure, Option.some.injEq] at h
        rw [← h]
        simp [ih hm]

/-- A present column has one value per row. -/
theorem colVals_length {df : DF} {c : String} (h : df.hasCol c = true) :
    (df.colVals c).length = df.rows.length := by
  simp only [DF.hasCol] at h
  obtain ⟨i, hi⟩ := Option.isSome_iff_exists.mp h
  simp [DF.colVals, hi]

/-- Column assignment keeps the column list when the column exists. -/
theorem setCol_names_of_hasCol {df : DF} {c : String} {vs : List Val}
    (h : df.hasCol c = true) : (df.setCol c vs).colNames = df.colNames := by
  simp only [DF.hasCol] at h
  obtain ⟨i, hi⟩ := Option.isSome_iff_exists.mp h
  simp [DF.setCol, hi]

/-- Column assignment appends the name when the column is new. -/
theorem setCol_names_of_not {df : DF} {c : String} {vs : List Val}
    (h : df.hasCol c = false) : (df.setCol c vs).colNames = df.colNames ++ [c] := by
  rcases hi : colIdx? c df.colNames with _ | i
  · simp [DF.setCol, hi]
  · rw [DF.hasCol, hi] at h
    simp at h

/-- Column assignment with one value per row keeps the row count. -/
theorem setCol_rows_length {df : DF} {c : String} {vs : List Val}
    (hv : vs.length = df.rows.length) : (df.setCol c vs).rows.length = df.rows.length := by
  unfold DF.setCol
  rcases hi : colIdx? c df.colNames with _ | i <;>
    simp [List.length_zipWith, hv]

/-- Column assignment preserves well-formedness. -/
theorem setCol_WF {df : DF} {c : String} {vs : List Val} (hw : df.WF) :
    (df.setCol c vs).WF := by
  unfold DF.setCol
  rcases hi : colIdx? c df.colNames with _ | i
  · intro r hr
    obtain ⟨a, b, ha, _, he⟩ := mem_zipWith hr
    subst he
    simp [hw a ha]
  · intro r hr
    obtain ⟨a, b, ha, _, he⟩ := mem_zipWith hr
    subst he
    simp [hw a ha]

/-- The assigned column exists afterwards. -/
theorem hasCol_setCol_self {df : DF} {c : String} {vs : List Val} :
    (df.setCol c vs).hasCol c = true := by
  rcases hi : colIdx? c df.colNames with _ | i
  · have hset : (df.setCol c vs).colNames = df.colNames ++ [c] := by
      simp [DF.setCol, hi]
    rw [DF.hasCol, hset, colIdx?_append_of_none hi, if_pos rfl]
    rfl
  · have hset : (df.setCol c vs).colNames = df.colNames := by
      simp [DF.setCol, hi]
    rw [DF.hasCol, hset, hi]
    rfl

/-- Assigning one column does not create or remove others. -/
theorem hasCol_setCol_ne {df : DF} {c d : String} {vs : List Val} (hne : d ≠ c) :
    (df.setCol c vs).hasCol d = df.hasCol d := by
  rcases hi : colIdx? c df.colNames with _ | i
  · have hset : (df.setCol c vs).colNames = df.colNames ++ [c] := by
      simp [DF.setCol, hi]
    rw [DF.hasCol, DF.hasCol, hset]
    rcases hd : colIdx? d df.colNames with _ | j
    · rw [colIdx?_append_of_none hd, if_neg (fun he => hne he.symm)]
    · rw [colIdx?_append_left hd]
  · have hset : (df.setCol c vs).colNames = df.colNames := by
      simp [DF.setCol, hi]
    rw [DF.hasCol, DF.hasCol, hset]

/-- Reading another column after an assignment gives the old values. -/
theorem colVals_setCol_ne {df : DF} {c d : String} {vs : List Val} (hw : df.WF)
    (hv : vs.length = df.rows.length) (hne : d ≠ c) :
    (df.setCol c vs).colVals d = df.colVals d := by
  rcases hi : colIdx? c df.colNames with _ | i
  · have hset : df.setCol c vs =
        ⟨df.colNames ++ [c], List.zipWith (fun r v => r ++ [v]) df.rows vs⟩ := by
      simp [DF.setCol, hi]
    rw [hset]
    rcases hd : colIdx? d df.colNames with _ | j
    · have h1 : colIdx? d (df.colNames ++ [c]) = none := by
        rw [colIdx?_append_of_none hd, if_neg (fun he => hne he.symm)]
      simp [DF.colVals, h1, hd]
    · have h1 : colIdx? d (df.colNames ++ [c]) = some j := colIdx?_append_left hd
      simp only [DF.colVals, h1, hd]
      exact zipWith_append_map_getCell_lt df.rows vs hv
        (fun r hr => by rw [hw r hr]; exact colIdx?_lt_length hd)
  · have hset : df.setCol c vs =
        ⟨df.colNames, List.zipWith (fun r v => r.set i v) df.rows vs⟩ := by
      simp [DF.setCol, hi]
    rw [hset]
    rcases hd : colIdx? d df.colNames with _ | j
    · simp [DF.colVals, hd]
    · have hij : j ≠ i := colIdx?_ne hne hd hi
      simp only [DF.colVals, hd]
      exact zipWith_set_map_getCell_ne hij.symm df.rows vs hv

/-- Reading the assigned column gives the new values. -/
theorem colVals_setCol_self {df : DF} {c : String} {vs : List Val} (hw : df.WF)
    (hv : vs.length = df.rows.length) : (df.setCol c vs).colVals c = vs := by
  rcases hi : colIdx? c df.colNames with _ | i
  · have hset : df.setCol c vs =
        ⟨df.colNames ++ [c], List.zipWith (fun r v => r ++ [v]) df.rows vs⟩ := by
      simp [DF.setCol, hi]
    rw [hset]
    have h1 : colIdx? c (df.colNames ++ [c]) = some df.colNames.length := by
      rw [colIdx?_append_of_none hi, if_pos rfl]
    simp only [DF.colVals, h1]
    exact zipWith_append_map_getCell_len df.rows vs hv (fun r hr => hw r hr)
  · have hset : df.setCol c vs =
        ⟨df.colNames, List.zipWith (fun r v => r.set i v) df.rows vs⟩ := by
      simp [DF.setCol, hi]
    rw [hset]
    simp only [DF.colVals, hi]
    exact zipWith_set_map_getCell_self df.rows vs hv
      (fun r hr => by rw [hw r hr]; exact colIdx?_lt_length hi)

/-- Assigning a column the values it already holds is the identity. -/
theorem setCol_self_eq {df : DF} {c : String} {vs : List Val} (hw : df.WF)
    (hc : df.hasCol c = true) (hvals : df.colVals c = vs) : df.setCol c vs = df := by
  simp only [DF.hasCol] at hc
  obtain ⟨i, hi⟩ := Option.isSome_iff_exists.mp hc
  have hset : df.setCol c vs =
      ⟨df.colNames, List.zipWith (fun r v => r.set i v) df.rows vs⟩ := by
    simp [DF.setCol, hi]
  rw [hset]
  have hvals' : df.rows.map (fun r => getCell r i) = vs := by
    rw [← hvals]
    simp [DF.colVals, hi]
  rw [← hvals', zipWith_set_self df.rows
    (fun r hr => by rw [hw r hr]; exact colIdx?_lt_length hi)]

/-- Every old column name survives an assignment. -/
theorem mem_setCol_names {df : DF} {c d : String} {vs : List Val}
    (h : d ∈ df.colNames) : d ∈ (df.setCol c vs).colNames := by
  unfold DF.setCol
  rcases hi : colIdx? c df.colNames with _ | i <;> simp [h]

/-- A succeeding derived-column step either skipped (source absent) or
assigned the mapped values. -/
theorem deriveFromM_cases {src tgt : String} {f : Val → Option Val} {r r' : DF}
    (h : deriveFromM src tgt f r = some r') :
    (r.hasCol src = false ∧ r' = r) ∨
    (r.hasCol src = true ∧ ∃ vs, (r.colVals src).mapM f = some vs ∧ r' = r.setCol tgt vs) := by
  unfold deriveFromM at h
  by_cases hs : r.hasCol src = true
  · rw [if_pos hs] at h
    rcases hm : (r.colVals src).mapM f with _ | vs
    · rw [hm] at h
      simp at h
    · rw [hm] at h
      simp only [Option.map_some', Option.some.injEq] at h
      exact Or.inr ⟨hs, vs, rfl, h.symm⟩
  · rw [if_neg hs] at h
    simp only [pure, Option.some.injEq] at h
    exact Or.inl ⟨by simpa using hs, h.symm⟩

/-- A succeeding derived-column step preserves well-formedness, the row
count, every other column, and all existing column names. -/
theorem deriveFromM_keeps {src tgt : String} {f : Val → Option Val} {r r' : DF}
    (hw : r.WF) (h : deriveFromM src tgt f r = some r') :
    r'.WF ∧ r'.rows.length = r.rows.length ∧
    (∀ x, x ≠ tgt → r'.hasCol x = r.hasCol x ∧ r'.colVals x = r.colVals x) ∧
    (∀ c ∈ r.colNames, c ∈ r'.colNames) := by
  rcases deriveFromM_cases h with ⟨hs, rfl⟩ | ⟨hs, vs, hm, rfl⟩
  · exact ⟨hw, rfl, fun x _ => ⟨rfl, rfl⟩, fun c hc => hc⟩
  · have hv : vs.length = r.rows.length := by
      rw [mapM_length hm, colVals_length hs]
    exact ⟨setCol_WF hw, setCol_rows_length hv,
      fun x hx => ⟨hasCol_setCol_ne hx, colVals_setCol_ne hw hv hx⟩,
      fun c hc => mem_setCol_names hc⟩

/-- The total derived-column step preserves the same data. -/
theorem deriveFrom_keeps {src tgt : String} {f : Val → Val} {r : DF} (hw : r.WF) :
    (deriveFrom src tgt f r).WF ∧
    (deriveFrom src tgt f r).rows.length = r.rows.length ∧
    (∀ x, x ≠ tgt → (deriveFrom src tgt f r).hasCol x = r.hasCol x ∧
      (deriveFrom src tgt f r).colVals x = r.colVals x) ∧
    (∀ c ∈ r.colNames, c ∈ (deriveFrom src tgt f r).colNames) := by
  unfold deriveFrom
  by_cases hs : r.hasCol src = true
  · rw [if_pos hs]
    have hv : ((r.colVals src).map f).length = r.rows.length := by
      rw [List.length_map, colVals_length hs]
    exact ⟨setCol_WF hw, setCol_rows_length hv,
      fun x hx => ⟨hasCol_setCol_ne hx, colVals_setCol_ne hw hv hx⟩,
      fun c hc => mem_setCol_names hc⟩
  · rw [if_neg hs]
    exact ⟨hw, rfl, fun x _ => ⟨rfl, rfl⟩, fun c hc => hc⟩

/-- Running the derived-column block on its own successful output changes
nothing: the source columns it reads were not touched, so every derived
column is recomputed to the value it already holds. -/
theorem addDerived_idem (cy : ℤ) (dy : Val → Val) (df e : DF) (hw : df.WF)
    (he : addDerived cy dy df = some e) :
    e.WF ∧ e.rows.length = df.rows.length ∧
    (∀ c ∈ df.colNames, c ∈ e.colNames) ∧
    addDerived cy dy e = some e := by
  simp only [addDerived] at he
  set r1 := (if (df.hasCol "date" && !df.hasCol "year") = true
    then df.setCol "year" (List.map dy (df.colVals "date")) else df) with hr1
  rcases h2 : deriveFromM "year" "book_age" (valSubFrom cy) r1 with _ | r2
  · rw [h2] at he
    simp at he
  rw [h2] at he
  simp only [Option.bind_eq_bind, Option.some_bind] at he
  rcases h3 : deriveFromM "filesize" "filesize_mb" valDivMB r2 with _ | r3
  · rw [h3] at he
    simp at he
  rw [h3] at he
  simp only [Option.bind_eq_bind, Option.some_bind] at he
  set r4 := deriveFrom "language" "language_code" valLangCode r3 with hr4
  rcases h5 : deriveFromM "year" "is_recent" (valGeFrom (cy - 5)) r4 with _ | r5
  · rw [h5] at he
    simp at he
  rw [h5] at he
  simp only [Option.bind_eq_bind, Option.some_bind, pure, Option.some.injEq] at he
  subst he
  -- facts about the first (non-monadic) step
  have hF1 : r1.WF ∧ r1.rows.length = df.rows.length ∧
      (∀ x, x ≠ "year" → r1.hasCol x = df.hasCol x ∧ r1.colVals x = df.colVals x) ∧
      (∀ c ∈ df.colNames, c ∈ r1.colNames) ∧
      r1.hasCol "year" = (df.hasCol "year" || df.hasCol "date") := by
    by_cases hc1 : (df.hasCol "date" && !df.hasCol "year") = true
    · have hc1' := hc1
      simp only [Bool.and_eq_true, Bool.not_eq_true'] at hc1'
      have hd : df.hasCol "date" = true := hc1'.1
      have hy : df.hasCol "year" = false := hc1'.2
      rw [hr1, if_pos hc1]
      have hv : (List.map dy (df.colVals "date")).length = df.rows.length := by
        rw [List.length_map, colVals_length hd]
      exact ⟨setCol_WF hw, setCol_rows_length hv,
        fun x hx => ⟨hasCol_setCol_ne hx, colVals_setCol_ne hw hv hx⟩,
        fun c hc => mem_setCol_names hc,
        by simp [hasCol_setCol_self, hy, hd]⟩
    · rw [hr1, if_neg hc1]
      refine ⟨hw, rfl, fun x _ => ⟨rfl, rfl⟩, fun c hc => hc, ?_⟩
      by_cases hy : df.hasCol "year" = true
      · simp [hy]
      · have hy' : df.hasCol "year" = false := by simpa using hy
        have hd' : df.hasCol "date" = false := by
          by_cases hd : df.hasCol "date" = true
          · exact absurd (by simp [hd, hy']) hc1
          · simpa using hd
        simp [hy', hd']
  have hF2 := deriveFromM_keeps hF1.1 h2
  have hF3 := deriveFromM_keeps hF2.1 h3
  have hF4 := @deriveFrom_keeps "language" "language_code" valLangCode _ hF3.1
  rw [← hr4] at hF4
  have hF5 := deriveFromM_keeps hF4.1 h5
  -- combined preservation from r1 to the final frame
  have keepAll : ∀ x : String, x ≠ "book_age" → x ≠ "filesize_mb" →
      x ≠ "language_code" → x ≠ "is_recent" →
      r5.hasCol x = r1.hasCol x ∧ r5.colVals x = r1.colVals x := by
    intro x hb hf hl hi
    have k2 := hF2.2.2.1 x hb
    have k3 := hF3.2.2.1 x hf
    have k4 := hF4.2.2.1 x hl
    have k5 := hF5.2.2.1 x hi
    exact ⟨by rw [k5.1, k4.1, k3.1, k2.1], by rw [k5.2, k4.2, k3.2, k2.2]⟩
  have keep34 : ∀ x : String, x ≠ "filesize_mb" → x ≠ "language_code" → x ≠ "is_recent" →
      r5.hasCol x = r2.hasCol x ∧ r5.colVals x = r2.colVals x := by
    intro x hf hl hi
    have k3 := hF3.2.2.1 x hf
    have k4 := hF4.2.2.1 x hl
    have k5 := hF5.2.2.1 x hi
    exact ⟨by rw [k5.1, k4.1, k3.1], by rw [k5.2, k4.2, k3.2]⟩
  have keep45 : ∀ x : String, x ≠ "language_code" → x ≠ "is_recent" →
      r5.hasCol x = r3.hasCol x ∧ r5.colVals x = r3.colVals x := by
    intro x hl hi
    have k4 := hF4.2.2.1 x hl
    have k5 := hF5.2.2.1 x hi
    exact ⟨by rw [k5.1, k4.1], by rw [k5.2, k4.2]⟩
  have keep5 : ∀ x : String, x ≠ "is_recent" →
      r5.hasCol x = r4.hasCol x ∧ r5.colVals x = r4.colVals x :=
    fun x hi => hF5.2.2.1 x hi
  have hwe : r5.WF := hF5.1
  have hlen : r5.rows.length = df.rows.length := by
    rw [hF5.2.1, hF4.2.1, hF3.2.1, hF2.2.1, hF1.2.1]
  have hnames : ∀ c ∈ df.colNames, c ∈ r5.colNames := fun c hc =>
    hF5.2.2.2 _ (hF4.2.2.2 _ (hF3.2.2.2 _ (hF2.2.2.2 _ (hF1.2.2.2.1 _ hc))))
  -- the year column of the final frame is the year column of r1
  have hyear := keepAll "year" (by decide) (by decide) (by decide) (by decide)
  -- the date-derived-year branch is always skipped on the final frame
  have hcond : (r5.hasCol "date" && !r5.hasCol "year") = false := by
    have hdate := keepAll "date" (by decide) (by decide) (by decide) (by decide)
    rw [hdate.1, hyear.1, (hF1.2.2.1 "date" (by decide)).1, hF1.2.2.2.2]
    by_cases hd : df.hasCol "date" = true
    · simp [hd]
    · have : df.hasCol "date" = false := by simpa using hd
      simp [this]
  -- second pass, step 2
  have s2 : deriveFromM "year" "book_age" (valSubFrom cy) r5 = some r5 := by
    rcases deriveFromM_cases h2 with ⟨hs, hr2e⟩ | ⟨hs, vs2, hm2, hr2e⟩
    · unfold deriveFromM
      rw [if_neg (by rw [hyear.1, hs]; simp)]
      rfl
    · have hv2 : vs2.length = r1.rows.length := by
        rw [mapM_length hm2, colVals_length hs]
      have hba : r5.hasCol "book_age" = true ∧ r5.colVals "book_age" = vs2 := by
        have k := keep34 "book_age" (by decide) (by decide) (by decide)
        rw [k.1, k.2, hr2e]
        exact ⟨hasCol_setCol_self, colVals_setCol_self hF1.1 hv2⟩
      unfold deriveFromM
      rw [if_pos (by rw [hyear.1]; exact hs), hyear.2, hm2]
      simp only [Option.map_some', Option.some.injEq]
      exact setCol_self_eq hwe hba.1 hba.2
  -- second pass, step 3
  have s3 : deriveFromM "filesize" "filesize_mb" valDivMB r5 = some r5 := by
    have hfs := keep34 "filesize" (by decide) (by decide) (by decide)
    rcases deriveFromM_cases h3 with ⟨hs, hr3e⟩ | ⟨hs, vs3, hm3, hr3e⟩
    · unfold deriveFromM
      rw [if_neg (by rw [hfs.1, hs]; simp)]
      rfl
    · have hv3 : vs3.length = r2.rows.length := by
        rw [mapM_length hm3, colVals_length hs]
      have hmb : r5.hasCol "filesize_mb" = true ∧ r5.colVals "filesize_mb" = vs3 := by
        have k := keep45 "filesize_mb" (by decide) (by decide)
        rw [k.1, k.2, hr3e]
        exact ⟨hasCol_setCol_self, colVals_setCol_self hF2.1 hv3⟩
      unfold deriveFromM
      rw [if_pos (by rw [hfs.1]; exact hs), hfs.2, hm3]
      simp only [Option.map_some', Option.some.injEq]
      exact setCol_self_eq hwe hmb.1 hmb.2
  -- second pass, step 4
  have s4 : deriveFrom "language" "language_code" valLangCode r5 = r5 := by
    have hlg := keep45 "language" (by decide) (by decide)
    by_cases hs : r3.hasCol "language" = true
    · have hv4 : ((r3.colVals "language").map valLangCode).length = r3.rows.length := by
        rw [List.length_map, colVals_length hs]
      have hr4e : r4 = r3.setCol "language_code" ((r3.colVals "language").map valLangCode) := by
        rw [hr4]
        unfold deriveFrom
        rw [if_pos hs]
      have hlc : r5.hasCol "language_code" = true ∧
          r5.colVals "language_code" = (r3.colVals "language").map valLangCode := by
        have k := keep5 "language_code" (by decide)
        rw [k.1, k.2, hr4e]
        exact ⟨hasCol_setCol_self, colVals_setCol_self hF3.1 hv4⟩
      unfold deriveFrom
      rw [if_pos (by rw [hlg.1]; exact hs), hlg.2]
      exact setCol_self_eq hwe hlc.1 hlc.2
    · unfold deriveFrom
      rw [if_neg (by rw [hlg.1]; exact hs)]
  -- second pass, step 5
  have s5 : deriveFromM "year" "is_recent" (valGeFrom (cy - 5)) r5 = some r5 := by
    have hy4 : r4.hasCol "year" = r1.hasCol "year" := by
      rw [(hF4.2.2.1 "year" (by decide)).1, (hF3.2.2.1 "year" (by decide)).1,
        (hF2.2.2.1 "year" (by decide)).1]
    rcases deriveFromM_cases h5 with ⟨hs, hr5e⟩ | ⟨hs, vs5, hm5, hr5e⟩
    · unfold deriveFromM
      rw [if_neg (by rw [hyear.1, ← hy4, hs]; simp)]
      rfl
    · have hv5 : vs5.length = r4.rows.length := by
        rw [mapM_length hm5, colVals_length hs]
      have hyv : r5.colVals "year" = r4.colVals "year" := (keep5 "year" (by decide)).2
      have hir : r5.hasCol "is_recent" = true ∧ r5.colVals "is_recent" = vs5 := by
        rw [hr5e]
        exact ⟨hasCol_setCol_self, colVals_setCol_self hF4.1 hv5⟩
      unfold deriveFromM
      rw [if_pos (by rw [hyear.1, ← hy4]; exact hs), hyv, hm5]
      simp only [Option.map_some', Option.some.injEq]
      exact setCol_self_eq hwe hir.1 hir.2
  refine ⟨hwe, hlen, hnames, ?_⟩
  simp only [addDerived]
  rw [if_neg (by rw [hcond]; simp)]
  rw [s2]
  simp only [Option.bind_eq_bind, Option.some_bind]
  rw [s3]
  simp only [Option.bind_eq_bind, Option.some_bind]
  rw [s4, s5]
  simp only [Option.bind_eq_bind, Option.some_bind]
  rfl

/-- Claim C9: on a well-formed frame, the Feature Builder is idempotent —
a second application (with the same current year) returns the enriched
frame unchanged, so in particular every already-present derived column
(book_age, filesize_mb, language_code, is_recent) is left as it is — and
it is non-destructive: every existing column name survives.  This holds
for every datetime-parsing function `dy` and also across the exception
path, which returns the input unchanged. -/
theorem extract_features_idem (cy : ℤ) (dy : Val → Val) (df : DF) (hwf : df.wfb = true) :
    extractFeatures cy dy (extractFeatures cy dy df) = extractFeatures cy dy df ∧
    ∀ c ∈ df.colNames, c ∈ (extractFeatures cy dy df).colNames := by
  have hw : df.WF := DF.wfb_iff.mp hwf
  by_cases hemp : df.empty = true
  · have h1 : extractFeatures cy dy df = df := by
      simp only [extractFeatures]
      rw [if_pos hemp]
    rw [h1]
    exact ⟨h1, fun c hc => hc⟩
  · rcases ha : addDerived cy dy df with _ | e
    · have h1 : extractFeatures cy dy df = df := by
        simp only [extractFeatures]
        rw [if_neg hemp, ha]
        rfl
      rw [h1]
      exact ⟨h1, fun c hc => hc⟩
    · obtain ⟨hwe, hlen, hnames, ha2⟩ := addDerived_idem cy dy df e hw ha
      have h1 : extractFeatures cy dy df = e := by
        simp only [extractFeatures]
        rw [if_neg hemp, ha]
        rfl
      have hef : df.empty = false := by
        simpa using hemp
      simp only [DF.empty, Bool.or_eq_false_iff, List.isEmpty_eq_false] at hef
      have hee : ¬e.empty = true := by
        simp only [DF.empty, Bool.or_eq_true, List.isEmpty_iff]
        rintro (h | h)
        · have : df.rows.length = 0 := by rw [← hlen, h]; rfl
          exact hef.1 (List.length_eq_zero.mp this)
        · obtain ⟨c, hc⟩ := List.exists_mem_of_ne_nil _ hef.2
          have := hnames c hc
          rw [h] at this
          simp at this
      rw [h1]
      refine ⟨?_, fun c hc => h1 ▸ hnames c hc⟩
      simp only [extractFeatures]
      rw [if_neg hee, ha2]
      rfl

/-- Witness for C9: a one-row frame with year, filesize and language
columns is well-formed, and the Feature Builder is idempotent and
non-destructive on it. -/
theorem extract_features_idem_witness :
    (DF.wfb ⟨["year", "filesize", "language"],
      [[Val.int 2008, Val.int 4718592, Val.str "English"]]⟩ = true) ∧
    (extractFeatures 2025 (fun _ => Val.nan)
        (extractFeatures 2025 (fun _ => Val.nan)
          ⟨["year", "filesize", "language"],
            [[Val.int 2008, Val.int 4718592, Val.str "English"]]⟩) =
      extractFeatures 2025 (fun _ => Val.nan)
        ⟨["year", "filesize", "language"],
          [[Val.int 2008, Val.int 4718592, Val.str "English"]]⟩ ∧
      ∀ c ∈ (⟨["year", "filesize", "language"],
          [[Val.int 2008, Val.int 4718592, Val.str "English"]]⟩ : DF).colNames,
        c ∈ (extractFeatures 2025 (fun _ => Val.nan)
          ⟨["year", "filesize", "language"],
            [[Val.int 2008, Val.int 4718592, Val.str "English"]]⟩).colNames) :=
  ⟨by decide, extract_features_idem 2025 (fun _ => Val.nan)
    ⟨["year", "filesize", "language"],
      [[Val.int 2008, Val.int 4718592, Val.str "English"]]⟩ (by decide)⟩

/-! ### Theorems about the rating pipeline order (`rate_results`) -/

/-- Descending order on overall-score keys, with NaN (`none`) below every
score — the order `sort_values(ascending=False, na_position='last')`
realises. -/
def scoreGe (a b : Option ℚ) : Prop :=
  b = none ∨ ∃ x y, a = some x ∧ b = some y ∧ y ≤ x

/-- The descending nargsort is a permutation of its input. -/
theorem nargsortDesc_perm {α : Type} (l : List (α × Option ℚ)) :
    (nargsortDesc l).Perm l := by
  unfold nargsortDesc
  have h1 : (List.insertionSort keyLe (l.filter (fun p => p.2.isSome)).reverse).reverse.Perm
      (l.filter (fun p => p.2.isSome)) :=
    (List.reverse_perm _).trans ((List.perm_insertionSort keyLe _).trans (List.reverse_perm _))
  refine (h1.append (List.Perm.refl _)).trans ?_
  have h2 : l.filter (fun p => p.2.isNone) = l.filter (fun p => !p.2.isSome) :=
    List.filter_congr (fun p _ => by cases p.2 <;> rfl)
  rw [h2]
  exact List.filter_append_perm _ l

/-- The descending nargsort is sorted: scores descend, and all NaN keys
come last. -/
theorem nargsortDesc_sorted {α : Type} (l : List (α × Option ℚ)) :
    List.Pairwise (fun p q : α × Option ℚ => scoreGe p.2 q.2) (nargsortDesc l) := by
  haveI : IsTotal (α × Option ℚ) keyLe := ⟨fun a b => le_total _ _⟩
  haveI : IsTrans (α × Option ℚ) keyLe := ⟨fun a b c h1 h2 => le_trans h1 h2⟩
  unfold nargsortDesc
  rw [List.pairwise_append]
  refine ⟨?_, ?_, ?_⟩
  · have hs : List.Pairwise keyLe
        (List.insertionSort keyLe (l.filter (fun p => p.2.isSome)).reverse) :=
      List.sorted_insertionSort keyLe _
    have hrev := List.pairwise_reverse.mpr hs
    refine hrev.imp_of_mem ?_
    intro a b ha hb hr
    have hmem : ∀ p : α × Option ℚ,
        p ∈ (List.insertionSort keyLe (l.filter (fun p => p.2.isSome)).reverse).reverse →
        p.2.isSome = true := by
      intro p hp
      have := (List.mem_insertionSort keyLe).mp (List.mem_reverse.mp hp)
      exact (List.mem_filter.mp (List.mem_reverse.mp this)).2
    obtain ⟨x, hx⟩ := Option.isSome_iff_exists.mp (hmem a ha)
    obtain ⟨y, hy⟩ := Option.isSome_iff_exists.mp (hmem b hb)
    refine Or.inr ⟨x, y, hx, hy, ?_⟩
    have : b.2.getD 0 ≤ a.2.getD 0 := hr
    rwa [hx, hy] at this
  · refine List.pairwise_of_forall_mem_list ?_
    intro a _ b hb
    exact Or.inl (Option.isNone_iff_eq_none.mp (List.mem_filter.mp hb).2)
  · intro a _ b hb
    exact Or.inl (Option.isNone_iff_eq_none.mp (List.mem_filter.mp hb).2)

/-- Min-max normalization returns one score per input value. -/
theorem normalizeColumn_length (col : List Val) :
    (normalizeColumn col).length = col.length := by
  unfold normalizeColumn
  cases hmx : (fillZero col).max? with
  | none =>
    have h0 : fillZero col = [] := List.max?_eq_none_iff.mp hmx
    have hc : col = [] := List.map_eq_nil_iff.mp h0
    subst hc
    simp [hmx]
  | some mx =>
    cases hmn : (fillZero col).min? with
    | none =>
      have h0 : fillZero col = [] := List.min?_eq_none_iff.mp hmn
      rw [h0] at hmx
      simp at hmx
    | some mn =>
      simp only [hmx, hmn]
      split_ifs <;> simp [fillZero]

/-- The recency series returns one score per input year. -/
theorem recencyScoresQ_length (flog : ℚ → ℚ) (cy : ℤ) (col : List Val) :
    (recencyScoresQ flog cy col).length = col.length := by
  simp only [recencyScoresQ]
  split_ifs <;> simp

/-- A succeeding quality-score computation returns one score per row. -/
theorem qualityScores?_length {df : DF} {qs : List ℚ} (h : qualityScores? df = some qs) :
    qs.length = df.rows.length := by
  simp only [qualityScores?] at h
  have hs1 : (if df.hasCol "extension" = true
      then (List.replicate df.rows.length (1 / 2 : ℚ)).zipWith (· + ·)
        ((df.colVals "extension").map extBonus)
      else List.replicate df.rows.length (1 / 2 : ℚ)).length = df.rows.length := by
    split_ifs with hx
    · simp [List.length_zipWith, colVals_length hx]
    · simp
  by_cases hf : df.hasCol "filesize" = true
  · rw [if_pos hf] at h
    rcases hm : (df.colVals "filesize").mapM sizeMB? with _ | mbs
    · rw [hm] at h
      simp at h
    · rw [hm] at h
      simp only [Option.bind_eq_bind, Option.some_bind, pure, Option.some.injEq] at h
      have hmbs : mbs.length = df.rows.length := by
        rw [mapM_length hm, colVals_length hf]
      rw [← h]
      by_cases hp : df.hasCol "pages" = true
      · rw [if_pos hp]
        simp only [List.length_map, List.length_zipWith, hs1, hmbs, colVals_length hp]
        omega
      · rw [if_neg hp]
        simp only [List.length_map, List.length_zipWith, hs1, hmbs]
        omega
  · rw [if_neg hf] at h
    simp only [Option.bind_eq_bind, Option.some_bind, pure, Option.some.injEq] at h
    rw [← h]
    by_cases hp : df.hasCol "pages" = true
    · rw [if_pos hp]
      simp only [List.length_map, List.length_zipWith, hs1, colVals_length hp]
      omega
    · rw [if_neg hp]
      simp only [List.length_map, hs1]

/-- The title, author, recency and popularity columns each carry one score
per row. -/
theorem scoreCols_length (qt : Finset String) (flog : ℚ → ℚ) (cy : ℤ) (df : DF) :
    (titleScores qt df).length = df.rows.length ∧
    (authorScores qt df).length = df.rows.length ∧
    (recencyCol flog cy df).length = df.rows.length ∧
    (popularityCol df).length = df.rows.length := by
  refine ⟨?_, ?_, ?_, ?_⟩
  · unfold titleScores
    split_ifs with hx
    · simp [colVals_length hx]
    · simp
  · unfold authorScores
    split_ifs with hx
    · simp [colVals_length hx]
    · simp
  · unfold recencyCol
    split_ifs with hx
    · simp [recencyScoresQ_length, colVals_length hx]
    · simp
  · unfold popularityCol
    split_ifs with hx hy
    · simp [normalizeColumn_length, colVals_length hx]
    · simp [normalizeColumn_length, colVals_length hy]
    · simp

/-- The overall-score column carries one key per row. -/
theorem overallCol_length {w : Weights} {ts au : List ℚ} {rc : List (Option ℚ)}
    {pp qs : List ℚ} {n : Nat} (hts : ts.length = n) (hau : au.length = n)
    (hrc : rc.length = n) (hpp : pp.length = n) (hqs : qs.length = n) :
    (overallCol w ts au rc pp qs).length = n := by
  unfold overallCol
  simp [List.length_map, List.length_zip, hts, hau, hrc, hpp, hqs]

/-- Claim C5 (amended): when scoring succeeds, `rate_results` returns the
score-enriched records arranged so that overall scores are non-increasing
with NaN scores last — some permutation of the scored rows sorted by
`overall_score` descending.  The underlying numpy quicksort is not
stable, so no tie order is asserted: rows with equal overall score may
come back in any relative order.  When scoring raises — e.g. a
non-numeric filesize in the quality computation — the input collection is
returned unchanged, without score columns. -/
theorem rate_results_order :
    (∀ (flog : ℚ → ℚ) (cy : ℤ) (w : Weights) (df : DF) (q : String) (kw : List String),
      ratePrep flog cy w df q kw = none → rateResults flog cy w df q kw = df) ∧
    (∀ (flog : ℚ → ℚ) (cy : ℤ) (w : Weights) (df : DF) (q : String) (kw : List String)
      (df6 : DF) (ov : List (Option ℚ)), df.empty = false →
      ratePrep flog cy w df q kw = some (df6, ov) →
      (rateResults flog cy w df q kw).colNames = df6.colNames ∧
      (rateResults flog cy w df q kw).rows.Perm df6.rows ∧
      ∃ ps : List (List Val × Option ℚ),
        ps.Perm (df6.rows.zip ov) ∧
        List.Pairwise (fun p q' : List Val × Option ℚ => scoreGe p.2 q'.2) ps ∧
        (rateResults flog cy w df q kw).rows = ps.map (fun p => p.1)) := by
  constructor
  · intro flog cy w df q kw h
    simp only [rateResults]
    by_cases hemp : df.empty = true
    · rw [if_pos hemp]
    · rw [if_neg hemp, h]
  · intro flog cy w df q kw df6 ov hemp h'
    have hout : rateResults flog cy w df q kw =
        ⟨df6.colNames, (nargsortDesc (df6.rows.zip ov)).map (fun p => p.1)⟩ := by
      simp only [rateResults]
      rw [if_neg (by rw [hemp]; simp), h']
    simp only [ratePrep] at h'
    rcases hqs : qualityScores? df with _ | qs
    · rw [hqs] at h'
      simp at h'
    · rw [hqs] at h'
      simp only [Option.bind_eq_bind, Option.some_bind, pure, Option.some.injEq,
        Prod.mk.injEq] at h'
      obtain ⟨h6, hov⟩ := h'
      set qt := queryTermsOf q kw with hqt
      set ts := titleScores qt df with hts'
      set au := authorScores qt df with hau'
      set rc := recencyCol flog cy df with hrc'
      set pp := popularityCol df with hpp'
      obtain ⟨hts, hau, hrc, hpp⟩ := scoreCols_length qt flog cy df
      have hqsl := qualityScores?_length hqs
      have hovc : (overallCol w ts au rc pp qs).length = df.rows.length :=
        overallCol_length hts hau hrc hpp hqsl
      have hovl : ov.length = df.rows.length := by
        rw [← hov]
        exact hovc
      have l1 : (df.setCol "title_match_score" (ts.map Val.rat)).rows.length =
          df.rows.length :=
        setCol_rows_length (by rw [List.length_map]; exact hts)
      have l2 : ((df.setCol "title_match_score" (ts.map Val.rat)).setCol
          "author_match_score" (au.map Val.rat)).rows.length = df.rows.length := by
        rw [setCol_rows_length (by rw [List.length_map, hau]; exact l1.symm)]
        exact l1
      have l3 : (((df.setCol "title_match_score" (ts.map Val.rat)).setCol
          "author_match_score" (au.map Val.rat)).setCol "recency_score"
          (rc.map optValRat)).rows.length = df.rows.length := by
        rw [setCol_rows_length (by rw [List.length_map, hrc]; exact l2.symm)]
        exact l2
      have l4 : ((((df.setCol "title_match_score" (ts.map Val.rat)).setCol
          "author_match_score" (au.map Val.rat)).setCol "recency_score"
          (rc.map optValRat)).setCol "popularity_score"
          (pp.map Val.rat)).rows.length = df.rows.length := by
        rw [setCol_rows_length (by rw [List.length_map, hpp]; exact l3.symm)]
        exact l3
      have l5 : (((((df.setCol "title_match_score" (ts.map Val.rat)).setCol
          "author_match_score" (au.map Val.rat)).setCol "recency_score"
          (rc.map optValRat)).setCol "popularity_score"
          (pp.map Val.rat)).setCol "quality_score"
          (qs.map Val.rat)).rows.length = df.rows.length := by
        rw [setCol_rows_length (by rw [List.length_map, hqsl]; exact l4.symm)]
        exact l4
      have l6 : ((((((df.setCol "title_match_score" (ts.map Val.rat)).setCol
          "author_match_score" (au.map Val.rat)).setCol "recency_score"
          (rc.map optValRat)).setCol "popularity_score"
          (pp.map Val.rat)).setCol "quality_score"
          (qs.map Val.rat)).setCol "overall_score"
          ((overallCol w ts au rc pp qs).map optValRat)).rows.length = df.rows.length := by
        rw [setCol_rows_length (by rw [List.length_map, hovc]; exact l5.symm)]
        exact l5
      have h6r : df6.rows.length = df.rows.length := by
        rw [← h6]
        exact l6
      have hzip : (df6.rows.zip ov).map (fun p : List Val × Option ℚ => p.1) = df6.rows := by
        rw [show (fun p : List Val × Option ℚ => p.1) = Prod.fst from rfl]
        exact List.map_fst_zip df6.rows ov (by rw [h6r, hovl])
      refine ⟨by rw [hout], ?_, ⟨nargsortDesc (df6.rows.zip ov),
        nargsortDesc_perm _, nargsortDesc_sorted _, by rw [hout]⟩⟩
      rw [hout]
      have hperm := (nargsortDesc_perm (df6.rows.zip ov)).map
        (fun p : List Val × Option ℚ => p.1)
      rw [hzip] at hperm
      exact hperm


/-- Witness for C5: on a concrete two-row frame the sorted output keeps the
column names of the scored frame, and the scoring pipeline succeeds. -/
theorem rate_results_order_witness :
    (⟨["id"], [[Val.str "a"], [Val.str "b"]]⟩ : DF).empty = false ∧
    ratePrep (fun x => x) 2025 defaultWeights ⟨["id"], [[Val.str "a"], [Val.str "b"]]⟩ "q" [] =
      some (⟨["id", "title_match_score", "author_match_score", "recency_score",
          "popularity_score", "quality_score", "overall_score"],
        [[Val.str "a", Val.rat 0, Val.rat 0, Val.rat (1/2), Val.rat (1/2), Val.rat (1/2),
            Val.rat (1/5)],
         [Val.str "b", Val.rat 0, Val.rat 0, Val.rat (1/2), Val.rat (1/2), Val.rat (1/2),
            Val.rat (1/5)]]⟩,
       [some (1/5), some (1/5)]) ∧
    (rateResults (fun x => x) 2025 defaultWeights ⟨["id"], [[Val.str "a"], [Val.str "b"]]⟩
        "q" []).colNames =
      ["id", "title_match_score", "author_match_score", "recency_score",
       "popularity_score", "quality_score", "overall_score"] := by
  have hprep : ratePrep (fun x => x) 2025 defaultWeights
      ⟨["id"], [[Val.str "a"], [Val.str "b"]]⟩ "q" [] =
      some (⟨["id", "title_match_score", "author_match_score", "recency_score",
          "popularity_score", "quality_score", "overall_score"],
        [[Val.str "a", Val.rat 0, Val.rat 0, Val.rat (1/2), Val.rat (1/2), Val.rat (1/2),
            Val.rat (1/5)],
         [Val.str "b", Val.rat 0, Val.rat 0, Val.rat (1/2), Val.rat (1/2), Val.rat (1/2),
            Val.rat (1/5)]]⟩,
       [some (1/5), some (1/5)]) := by
    simp +decide [ratePrep, qualityScores?, queryTermsOf, titleScores, authorScores,
      recencyCol, popularityCol, overallCol, DF.hasCol, colIdx?, DF.colVals, DF.setCol,
      getCell, optValRat, clip01, defaultWeights]
    norm_num
  exact ⟨by decide, hprep,
    (rate_results_order.2 (fun x => x) 2025 defaultWeights
      ⟨["id"], [[Val.str "a"], [Val.str "b"]]⟩ "q" [] _ _ (by decide) hprep).1⟩

/-- Counterexample for C5 as stated: the spec says rated results always carry an
overall_score column and come back sorted by it, but when scoring raises (here a
non-numeric string filesize feeding the quality-score division) the original
frame is returned untouched, without any score columns. -/
theorem rate_results_cex :
    DF.empty ⟨["id", "filesize"], [[Val.str "1", Val.str "big"], [Val.str "2", Val.str "4 MB"]]⟩
      = false ∧
    DF.hasCol (rateResults (fun x => x) 2025 defaultWeights
      ⟨["id", "filesize"], [[Val.str "1", Val.str "big"], [Val.str "2", Val.str "4 MB"]]⟩
      "clean code" []) "overall_score" = false := by
  decide

end PyLibGen
